import Mathlib

/-!
Verification of the expense-tracker local data store, validation layer,
derived-view calculator and CSV import/export codec.

The TypeScript sources are shallowly embedded: JS strings become lists of
characters (`Str`), JS numbers holding integer cent amounts become `Int`,
`undefined`-able fields become `Option`, thrown errors become `Except`,
the ambient clock / UUID generator become explicit parameters, and the
browser `localStorage` plus the in-memory rate-limiter map become an
explicit state threaded through the storage operations.
-/

set_option autoImplicit false

namespace ExpenseTracker

/-- JS strings, modelled as lists of characters. -/
abbrev Str := List Char

/-- Coercion from Lean string literals to the `Str` model. -/
def ofString (s : String) : Str := s.data

/-- Characters the ECMAScript `\s` class (and `String.prototype.trim`)
treats as whitespace: space, tab, LF, VT, FF, CR, NBSP and the BOM /
zero-width no-break space U+FEFF (the ones relevant to this codebase). -/
def jsIsWs (c : Char) : Bool :=
  c == ' ' || c == '\t' || c == '\n' || c == Char.ofNat 11 || c == Char.ofNat 12 ||
  c == '\r' || c == Char.ofNat 160 || c == Char.ofNat 0xFEFF

/-- Model of `String.prototype.trim`: drop leading and trailing whitespace. -/
def jsTrim (s : Str) : Str :=
  ((s.dropWhile jsIsWs).reverse.dropWhile jsIsWs).reverse

/-- Model of `.replace(/\s+/g, ' ')`: collapse every whitespace run to one space. -/
def collapseWs : Str → Str
  | [] => []
  | [c] => if jsIsWs c then [' '] else [c]
  | c1 :: c2 :: cs =>
    if jsIsWs c1 && jsIsWs c2 then collapseWs (c2 :: cs)
    else (if jsIsWs c1 then ' ' else c1) :: collapseWs (c2 :: cs)

/-- Characters stripped by `sanitizeText` (`/[<>\"'&]/`): `<`, `>`, `"` (34), `'` (39), `&`. -/
def isXssChar (c : Char) : Bool :=
  c == '<' || c == '>' || c.toNat == 34 || c.toNat == 39 || c == '&'

/-- Model of `security.ts` `sanitizeText`: trim, truncate to `maxLength`,
strip the XSS character set, collapse whitespace runs. -/
def sanitizeText (input : Str) (maxLength : Nat) : Str :=
  collapseWs (((jsTrim input).take maxLength).filter (fun c => !isXssChar c))

/-- Characters `sanitizeCategory` keeps: alphanumerics, spaces, hyphens, underscores. -/
def isCategoryChar (c : Char) : Bool :=
  (Char.toNat '0' ≤ c.toNat && c.toNat ≤ Char.toNat '9') ||
  (Char.toNat 'a' ≤ c.toNat && c.toNat ≤ Char.toNat 'z') ||
  (Char.toNat 'A' ≤ c.toNat && c.toNat ≤ Char.toNat 'Z') ||
  c == ' ' || c == '-' || c == '_'

/-- Model of `security.ts` `sanitizeCategory`: trim, truncate to 50,
keep only alphanumerics/space/hyphen/underscore, collapse whitespace runs. -/
def sanitizeCategory (category : Str) : Str :=
  collapseWs (((jsTrim category).take 50).filter isCategoryChar)

/-- Decimal digit test, as in `/\d/`. -/
def isDigitCh (c : Char) : Bool := 48 ≤ c.toNat && c.toNat ≤ 57

/-- Uppercase ASCII letter test, as in `/[A-Z]/`. -/
def isUpperCh (c : Char) : Bool := 65 ≤ c.toNat && c.toNat ≤ 90

/-- Hexadecimal digit test (either case), used by the UUID shape check. -/
def isHexCh (c : Char) : Bool :=
  isDigitCh c || (97 ≤ c.toNat && c.toNat ≤ 102) || (65 ≤ c.toNat && c.toNat ≤ 70)

/-- Model of the zod regex `/^\d{4}-\d{2}-\d{2}$/` on `paidAt`:
exactly ten characters, `YYYY-MM-DD`, digits and two hyphens. -/
def matchesDateOnly : Str → Bool
  | [y1, y2, y3, y4, s1, m1, m2, s2, d1, d2] =>
    isDigitCh y1 && isDigitCh y2 && isDigitCh y3 && isDigitCh y4 && s1 == '-' &&
    isDigitCh m1 && isDigitCh m2 && s2 == '-' && isDigitCh d1 && isDigitCh d2
  | _ => false

/-- Model of the zod regex `/^\d{4}-\d{2}$/` on `yearMonth`. -/
def matchesYearMonth : Str → Bool
  | [y1, y2, y3, y4, s1, m1, m2] =>
    isDigitCh y1 && isDigitCh y2 && isDigitCh y3 && isDigitCh y4 && s1 == '-' &&
    isDigitCh m1 && isDigitCh m2
  | _ => false

/-- Model of a JS single-character `String.prototype.split`: splitting the
empty string yields `[""]`, separators at the edges yield empty pieces. -/
def jsSplitOn (sep : Char) : Str → List Str
  | [] => [[]]
  | c :: cs =>
    match jsSplitOn sep cs with
    | [] => [[c]]
    | h :: t => if c == sep then [] :: h :: t else (c :: h) :: t

/-- Model of `Array.prototype.join` with a one-character separator. -/
def jsJoin (sep : Char) : List Str → Str
  | [] => []
  | [x] => x
  | x :: xs => x ++ sep :: jsJoin sep xs

/-- Segment-shape check for `z.string().uuid()`: hex digits in the 8-4-4-4-12
layout (the variant/version digit fine print of zod's regex is immaterial to
every claim, so only the hex-and-dashes shape is modelled). -/
def isUuidStr (s : Str) : Bool :=
  ((jsSplitOn '-' s).map List.length == [8, 4, 4, 4, 12]) &&
  s.all (fun c => isHexCh c || c == '-')

/-- Time-of-day shape `HH:MM:SS` used inside `z.string().datetime()`. -/
def matchesHms : Str → Bool
  | [h1, h2, c1, m1, m2, c2, s1, s2] =>
    isDigitCh h1 && isDigitCh h2 && c1 == ':' && isDigitCh m1 && isDigitCh m2 &&
    c2 == ':' && isDigitCh s1 && isDigitCh s2
  | _ => false

/-- Tail of a zod datetime after the seconds: either a bare `Z` or a
nonempty all-digit fraction followed by `Z`. -/
def datetimeTailOk (s : Str) : Bool :=
  match s with
  | ['Z'] => true
  | '.' :: rest =>
    rest.length ≥ 2 && rest.getLast? == some 'Z' && rest.dropLast.all isDigitCh
  | _ => false

/-- Model of `z.string().datetime()` (UTC form, optional fractional seconds):
`YYYY-MM-DDTHH:MM:SS(.fff)?Z`. -/
def isDatetimeStr (s : Str) : Bool :=
  matchesDateOnly (s.take 10) &&
  (match s.drop 10 with
   | 'T' :: rest => matchesHms (rest.take 8) && datetimeTailOk (rest.drop 8)
   | _ => false)

/-- Optional-string length bound, as zod `z.string().max(n).optional()`. -/
def optLenLe (o : Option Str) (n : Nat) : Bool :=
  match o with
  | none => true
  | some s => s.length ≤ n

/-- Stored expense record (`types/expense.ts`).  `category`, `note` and
`paymentMethod` are `Option` because at runtime `updateExpense` can place
`undefined` into any of them (JS object spread copies keys whose value is
`undefined`), even though the TS type declares `category` as required. -/
structure Expense where
  id : Str
  amountCents : Int
  currency : Str
  category : Option Str
  note : Option Str
  paidAt : Str
  paymentMethod : Option Str
  createdAt : Str
  updatedAt : Str
  deriving Repr, DecidableEq

/-- Stored budget record (`types/expense.ts`). -/
structure Budget where
  id : Str
  yearMonth : Str
  category : Option Str
  limitCents : Int
  deriving Repr, DecidableEq

/-- Legacy settings blob (`storage.ts` `Settings`); the `theme` field is
ignored by `SettingsSchema` and by every claim, so it is not modelled. -/
structure Settings where
  currency : Str
  categories : List Str
  monthlyBudget : Option Int
  deriving Repr, DecidableEq

/-- Model of zod `ExpenseSchema.safeParse(e).success` from `security.ts`
(the `z.number().int()` check is carried by the `Int` field type). -/
def ExpenseSchemaOk (e : Expense) : Bool :=
  isUuidStr e.id &&
  1 ≤ e.amountCents && e.amountCents ≤ 100000000 &&
  e.currency.length == 3 && e.currency.all isUpperCh &&
  (match e.category with
   | some c => 1 ≤ c.length && c.length ≤ 50
   | none => false) &&
  optLenLe e.note 500 &&
  matchesDateOnly e.paidAt &&
  optLenLe e.paymentMethod 50 &&
  isDatetimeStr e.createdAt &&
  isDatetimeStr e.updatedAt

/-- Model of `security.ts` `validateExpenseData`: the array is accepted only
if every member passes `ExpenseSchema`. -/
def validateExpenseData (data : List Expense) : Bool :=
  data.all ExpenseSchemaOk

/-- Model of zod `BudgetSchema.safeParse(b).success` from `security.ts`. -/
def BudgetSchemaOk (b : Budget) : Bool :=
  isUuidStr b.id &&
  matchesYearMonth b.yearMonth &&
  optLenLe b.category 50 &&
  0 ≤ b.limitCents && b.limitCents ≤ 100000000

/-- Model of `security.ts` `validateBudgetData`. -/
def validateBudgetData (data : List Budget) : Bool :=
  data.all BudgetSchemaOk

/-- Model of zod `SettingsSchema.safeParse(s).success` from `security.ts`:
currency is a 3-letter uppercase code, at most 20 categories each of length
1..50, optional monthly budget in 0..100000000. -/
def SettingsSchemaOk (s : Settings) : Bool :=
  s.currency.length == 3 && s.currency.all isUpperCh &&
  s.categories.all (fun c => 1 ≤ c.length && c.length ≤ 50) &&
  s.categories.length ≤ 20 &&
  (match s.monthlyBudget with
   | none => true
   | some v => 0 ≤ v && v ≤ 100000000)

/-- Model of `security.ts` `validateSettingsData`. -/
def validateSettingsData (s : Settings) : Bool :=
  SettingsSchemaOk s

/-! ## Rate limiter (`security.ts` `checkRateLimit`) -/

/-- One entry of the module-level `operationCounts` map. -/
structure RateEntry where
  count : Nat
  resetTime : Int
  deriving Repr, DecidableEq

/-- The `operationCounts` JS `Map`, as an association list keyed by the
operation name (keys are unique because entries are only created by
`mapSet`). -/
abbrev RateMap := List (String × RateEntry)

/-- JS `Map.prototype.get`. -/
def mapGet (m : RateMap) (k : String) : Option RateEntry :=
  match m with
  | [] => none
  | (k1, v) :: rest => if k1 == k then some v else mapGet rest k

/-- JS `Map.prototype.set`: replace the entry in place if the key is
present, otherwise append a new entry. -/
def mapSet (m : RateMap) (k : String) (v : RateEntry) : RateMap :=
  match m with
  | [] => [(k, v)]
  | (k1, v1) :: rest =>
    if k1 == k then (k1, v) :: rest else (k1, v1) :: mapSet rest k v

/-- Model of `security.ts` `checkRateLimit`: `Date.now()` becomes the
explicit `now` argument; returns the verdict together with the updated
counter map (mutation of the JS `Map` made explicit). -/
def checkRateLimit (now : Int) (operation : String) (maxOps : Nat)
    (windowMs : Int) (m : RateMap) : Bool × RateMap :=
  match mapGet m operation with
  | none => (true, mapSet m operation ⟨1, now + windowMs⟩)
  | some current =>
    if now > current.resetTime then
      (true, mapSet m operation ⟨1, now + windowMs⟩)
    else if current.count ≥ maxOps then
      (false, m)
    else
      (true, mapSet m operation ⟨current.count + 1, current.resetTime⟩)

/-! ## Record store (`storage.ts`)

`localStorage` is modelled as a record of three typed slots (`none` models
an absent key) plus a capacity flag: `secureLocalStorageSet` succeeds and
stores the value when `full = false`, and fails (the quota-exceeded throw
caught inside `secureLocalStorageSet`) when `full = true`.  Each operation
takes the clock / fresh-UUID values as arguments and returns its result
together with the updated persisted state and rate-limiter map; a thrown
error becomes `Except.error`. -/

/-- Persisted `localStorage` state: the three collection slots and a
capacity-exceeded flag. -/
structure Persist where
  expensesSlot : Option (List Expense)
  budgetsSlot : Option (List Budget)
  settingsSlot : Option Settings
  full : Bool
  deriving Repr, DecidableEq

/-- The errors thrown by `storage.ts`: the rate-limit throw, the
invalid-data throw, and the storage-full throw. -/
inductive StoreErr where
  | rateLimited
  | invalidData
  | storageFull
  deriving Repr, DecidableEq

/-- Model of `storage.ts` `getExpenses`: absent key gives `[]`, data that
fails validation degrades to `[]`. -/
def getExpenses (p : Persist) : List Expense :=
  match p.expensesSlot with
  | none => []
  | some stored => if validateExpenseData stored then stored else []

/-- Model of `storage.ts` `saveExpenses`: rate check on the shared
`saveExpenses` kind (limit 50), then whole-collection validation, then the
write (which fails when capacity is exceeded). -/
def saveExpenses (now : Int) (expenses : List Expense) (p : Persist)
    (m : RateMap) : Except StoreErr Unit × Persist × RateMap :=
  if !(checkRateLimit now "saveExpenses" 50 60000 m).1 then
    (.error .rateLimited, p, (checkRateLimit now "saveExpenses" 50 60000 m).2)
  else if !validateExpenseData expenses then
    (.error .invalidData, p, (checkRateLimit now "saveExpenses" 50 60000 m).2)
  else if p.full then
    (.error .storageFull, p, (checkRateLimit now "saveExpenses" 50 60000 m).2)
  else
    (.ok (), { p with expensesSlot := some expenses },
      (checkRateLimit now "saveExpenses" 50 60000 m).2)

/-- Input of `addExpense`: `Omit<Expense, 'id' | 'createdAt' | 'updatedAt'>`. -/
structure NewExpense where
  amountCents : Int
  currency : Str
  category : Str
  note : Option Str
  paidAt : Str
  paymentMethod : Option Str
  deriving Repr, DecidableEq

/-- The sanitized new record `addExpense` constructs before persisting:
text fields sanitized (a falsy — absent or empty — note or payment method
becomes `undefined`), fresh id and creation timestamps stamped. -/
def mkNewExpense (nowIso freshId : Str) (expense : NewExpense) : Expense :=
  { id := freshId
    amountCents := expense.amountCents
    currency := expense.currency
    category := some (sanitizeCategory expense.category)
    note := match expense.note with
      | some n => if n ≠ [] then some (sanitizeText n 500) else none
      | none => none
    paidAt := expense.paidAt
    paymentMethod := match expense.paymentMethod with
      | some pm => if pm ≠ [] then some (sanitizeText pm 50) else none
      | none => none
    createdAt := nowIso
    updatedAt := nowIso }

/-- Model of `storage.ts` `addExpense`: own rate check (limit 100), then
append the sanitized, freshly stamped record (see `mkNewExpense`) and
persist through `saveExpenses`. -/
def addExpense (now : Int) (nowIso freshId : Str) (expense : NewExpense)
    (p : Persist) (m : RateMap) : Except StoreErr Expense × Persist × RateMap :=
  if !(checkRateLimit now "addExpense" 100 60000 m).1 then
    (.error .rateLimited, p, (checkRateLimit now "addExpense" 100 60000 m).2)
  else
    match saveExpenses now (getExpenses p ++ [mkNewExpense nowIso freshId expense]) p
        (checkRateLimit now "addExpense" 100 60000 m).2 with
    | (.ok _, p2, m2) => (.ok (mkNewExpense nowIso freshId expense), p2, m2)
    | (.error e, p2, m2) => (.error e, p2, m2)

/-- A `Partial<Expense>` argument: every field optionally supplied. -/
structure ExpenseUpdate where
  id : Option Str := none
  amountCents : Option Int := none
  currency : Option Str := none
  category : Option Str := none
  note : Option Str := none
  paidAt : Option Str := none
  paymentMethod : Option Str := none
  createdAt : Option Str := none
  updatedAt : Option Str := none
  deriving Repr, DecidableEq

/-- The record `updateExpense` builds: `sanitizedUpdates` spread over the
existing record with a fresh `updatedAt`.  Because the `sanitizedUpdates`
object literal always carries the `category` / `note` / `paymentMethod`
keys (with value `undefined` when the partial omits them or supplies a
falsy value), those three fields of the merged record are always taken
from `sanitizedUpdates`, clearing them when not supplied — the JS spread
does not skip `undefined`-valued keys. -/
def mergeUpdate (nowIso : Str) (updates : ExpenseUpdate) (existing : Expense) :
    Expense :=
  { id := updates.id.getD existing.id
    amountCents := updates.amountCents.getD existing.amountCents
    currency := updates.currency.getD existing.currency
    category := match updates.category with
      | some c => if c ≠ [] then some (sanitizeCategory c) else none
      | none => none
    note := match updates.note with
      | some n => if n ≠ [] then some (sanitizeText n 500) else none
      | none => none
    paidAt := updates.paidAt.getD existing.paidAt
    paymentMethod := match updates.paymentMethod with
      | some pm => if pm ≠ [] then some (sanitizeText pm 50) else none
      | none => none
    createdAt := updates.createdAt.getD existing.createdAt
    updatedAt := nowIso }

/-- Model of `storage.ts` `updateExpense`: own rate check (limit 100), then
look up the record by id (`get?` at the `findIdx` position is `none`
exactly when `findIndex` returns the `-1` sentinel), merge via
`mergeUpdate`, persist the collection with the merged record written back
at the same index. -/
def updateExpense (now : Int) (nowIso : Str) (id : Str)
    (updates : ExpenseUpdate) (p : Persist) (m : RateMap) :
    Except StoreErr (Option Expense) × Persist × RateMap :=
  if !(checkRateLimit now "updateExpense" 100 60000 m).1 then
    (.error .rateLimited, p, (checkRateLimit now "updateExpense" 100 60000 m).2)
  else
    match (getExpenses p).get? ((getExpenses p).findIdx (fun e => e.id == id)) with
    | none => (.ok none, p, (checkRateLimit now "updateExpense" 100 60000 m).2)
    | some existing =>
      match saveExpenses now
          ((getExpenses p).set ((getExpenses p).findIdx (fun e => e.id == id))
            (mergeUpdate nowIso updates existing))
          p (checkRateLimit now "updateExpense" 100 60000 m).2 with
      | (.ok _, p2, m2) =>
        (.ok (some (mergeUpdate nowIso updates existing)), p2, m2)
      | (.error e, p2, m2) => (.error e, p2, m2)

/-- Model of `storage.ts` `deleteExpense`: no rate check of its own; filter
by id, return `false` without writing when nothing was removed, otherwise
persist the filtered collection through `saveExpenses`. -/
def deleteExpense (now : Int) (id : Str) (p : Persist) (m : RateMap) :
    Except StoreErr Bool × Persist × RateMap :=
  if ((getExpenses p).filter (fun e => !(e.id == id))).length == (getExpenses p).length then
    (.ok false, p, m)
  else
    match saveExpenses now ((getExpenses p).filter (fun e => !(e.id == id))) p m with
    | (.ok _, p2, m2) => (.ok true, p2, m2)
    | (.error e, p2, m2) => (.error e, p2, m2)

/-- Model of `storage.ts` `getBudgets`. -/
def getBudgets (p : Persist) : List Budget :=
  match p.budgetsSlot with
  | none => []
  | some stored => if validateBudgetData stored then stored else []

/-- Model of `storage.ts` `saveBudgets`: validation then write; note there
is no rate-limit consultation on this path. -/
def saveBudgets (budgets : List Budget) (p : Persist) :
    Except StoreErr Unit × Persist :=
  if !validateBudgetData budgets then (.error .invalidData, p)
  else if p.full then (.error .storageFull, p)
  else (.ok (), { p with budgetsSlot := some budgets })

/-- The `(yearMonth, category)` upsert key test of `setBudget`, the model
of its `findIndex` callback `b.yearMonth === yearMonth && b.category ===
category`. -/
def pairMatch (yearMonth : Str) (category : Option Str) (b : Budget) : Bool :=
  b.yearMonth == yearMonth && b.category == category

/-- At most one budget per `(yearMonth, category)` pair. -/
def uniqueBudgetPairs : List Budget → Bool
  | [] => true
  | b :: rest =>
    rest.all (fun x => !pairMatch b.yearMonth b.category x) && uniqueBudgetPairs rest

/-- The budget value `setBudget` constructs: the existing entry's id when
the `(yearMonth, category)` pair is already present
(`existingIndex >= 0`), else the fresh id. -/
def upsertBudget (freshId yearMonth : Str) (limitCents : Int)
    (category : Option Str) (budgets : List Budget) : Budget :=
  { id := match budgets.get? (budgets.findIdx (pairMatch yearMonth category)) with
      | some existing => existing.id
      | none => freshId
    yearMonth := yearMonth
    category := category
    limitCents := limitCents }

/-- The collection `setBudget` persists: the new budget value written over
the existing entry when the pair is present, else appended. -/
def upsertList (freshId yearMonth : Str) (limitCents : Int)
    (category : Option Str) (budgets : List Budget) : List Budget :=
  if budgets.findIdx (pairMatch yearMonth category) < budgets.length then
    budgets.set (budgets.findIdx (pairMatch yearMonth category))
      (upsertBudget freshId yearMonth limitCents category budgets)
  else
    budgets ++ [upsertBudget freshId yearMonth limitCents category budgets]

/-- Model of `storage.ts` `setBudget`: upsert keyed by
`(yearMonth, category)` — the budget value reuses the existing id when the
pair is present, else the fresh one (see `upsertBudget`); it is written in
place over the existing entry or appended (see `upsertList`), and the
collection persisted through `saveBudgets`.  The function never consults
the rate limiter, which is why no `RateMap` appears in its signature. -/
def setBudget (freshId : Str) (yearMonth : Str) (limitCents : Int)
    (category : Option Str) (p : Persist) : Except StoreErr Budget × Persist :=
  match saveBudgets (upsertList freshId yearMonth limitCents category (getBudgets p)) p with
  | (.ok _, p2) =>
    (.ok (upsertBudget freshId yearMonth limitCents category (getBudgets p)), p2)
  | (.error e, p2) => (.error e, p2)

/-- The `defaultSettings` constant of `storage.ts`. -/
def defaultSettings : Settings :=
  { currency := ofString "EUR"
    categories := [ofString "Food", ofString "Groceries", ofString "Transport",
      ofString "Bills", ofString "Entertainment", ofString "Health",
      ofString "Shopping", ofString "Other"]
    monthlyBudget := none }

/-- Model of `storage.ts` `getSettings`: absent key gives the defaults; the
stored object is merged over the defaults (with the typed slot this merge
is the stored object itself) and must validate, else defaults. -/
def getSettings (p : Persist) : Settings :=
  match p.settingsSlot with
  | none => defaultSettings
  | some stored => if validateSettingsData stored then stored else defaultSettings

/-- A `Partial<Settings>` argument to `saveSettings`. -/
structure SettingsUpdate where
  currency : Option Str := none
  categories : Option (List Str) := none
  monthlyBudget : Option Int := none
  deriving Repr, DecidableEq

/-- The merged settings candidate `saveSettings` builds from the current
settings, the supplied partial, and the sanitized category list. -/
def mergeSettings (upd : SettingsUpdate) (current : Settings)
    (cs : List Str) : Settings :=
  { currency := upd.currency.getD current.currency
    categories := cs
    monthlyBudget := match upd.monthlyBudget with
      | some v => some v
      | none => current.monthlyBudget }

/-- Model of `storage.ts` `saveSettings`.  The sanitized-settings literal
always carries a `categories` key (`settings.categories?.map(...)` is
`undefined` when `categories` was not supplied), so the spread over the
current settings clobbers `categories` with `undefined` in that case and
schema validation then rejects the candidate — hence the `none` branch
returns the validation error. -/
def saveSettings (upd : SettingsUpdate) (p : Persist) :
    Except StoreErr Unit × Persist :=
  match upd.categories.map
      (fun cs => (cs.map sanitizeCategory).filter (fun c => c ≠ [])) with
  | none => (.error .invalidData, p)
  | some cs =>
    if !validateSettingsData (mergeSettings upd (getSettings p) cs) then
      (.error .invalidData, p)
    else if p.full then (.error .storageFull, p)
    else (.ok (), { p with settingsSlot := some (mergeSettings upd (getSettings p) cs) })

/-! ## Calendar dates

`paidAt` values are `YYYY-MM-DD` strings; the date arithmetic of
`expense-utils.ts` (and the UTC rendering of `Date.prototype.toISOString`)
is modelled on explicit year/month/day triples. -/

/-- A calendar date. -/
structure Ymd where
  year : Nat
  month : Nat
  day : Nat
  deriving Repr, DecidableEq

/-- Gregorian leap-year rule, as implemented by the JS `Date` object. -/
def isLeap (y : Nat) : Bool :=
  y % 4 == 0 && (y % 100 != 0 || y % 400 == 0)

/-- Number of days in month `m` (1..12) of year `y`; matches
`new Date(y, m, 0).getDate()`. -/
def daysInMonth (y m : Nat) : Nat :=
  if m == 2 then (if isLeap y then 29 else 28)
  else if m == 4 || m == 6 || m == 9 || m == 11 then 30
  else 31

/-- The decimal digit character for `d` (callers pass values below 10). -/
def digitChar : Nat → Char
  | 0 => '0' | 1 => '1' | 2 => '2' | 3 => '3' | 4 => '4'
  | 5 => '5' | 6 => '6' | 7 => '7' | 8 => '8' | _ => '9'

/-- Two-digit zero-padded rendering (`String(n).padStart(2, '0')`) for
values below 100. -/
def pad2 (n : Nat) : Str :=
  [digitChar (n / 10 % 10), digitChar (n % 10)]

/-- Four-digit zero-padded year rendering used by `toISOString` for years
below 10000. -/
def pad4 (n : Nat) : Str :=
  [digitChar (n / 1000 % 10), digitChar (n / 100 % 10),
   digitChar (n / 10 % 10), digitChar (n % 10)]

/-- The canonical `YYYY-MM-DD` rendering of a date. -/
def encodeDate (t : Ymd) : Str :=
  pad4 t.year ++ '-' :: pad2 t.month ++ '-' :: pad2 t.day

/-- The canonical `YYYY-MM` rendering of a month key. -/
def encodeYm (y m : Nat) : Str :=
  pad4 y ++ '-' :: pad2 m

/-- Numeric value of a digit character. -/
def digitVal (c : Char) : Nat := c.toNat - 48

/-- Model of JS `Number(s)` on the nonempty all-digit strings produced by
splitting a canonical month key. -/
def strToNat (s : Str) : Nat :=
  s.foldl (fun acc c => acc * 10 + digitVal c) 0

/-- Days in the months of year `y` strictly before month `m`. -/
def daysBeforeMonth (y m : Nat) : Nat :=
  ((List.range (m - 1)).map (fun i => daysInMonth y (i + 1))).sum

/-- Days from 0001-01-01 to the given date (proleptic Gregorian). -/
def rataDie (t : Ymd) : Nat :=
  365 * (t.year - 1) + (t.year - 1) / 4 - (t.year - 1) / 100 + (t.year - 1) / 400 +
    daysBeforeMonth t.year t.month + (t.day - 1)

/-- Signed day count since the Unix epoch (1970-01-01 has `rataDie` 719162). -/
def epochDayOf (t : Ymd) : Int :=
  (rataDie t : Int) - 719162

/-- Milliseconds since the epoch of UTC midnight of the given date;
the value `new Date("YYYY-MM-DD").getTime()` yields. -/
def epochMsOf (t : Ymd) : Int :=
  epochDayOf t * 86400000

/-- Model of `new Date(s)` for ISO date-only strings — the shape this
repository stores and exports.  Such strings parse as UTC midnight, and
out-of-range components produce an Invalid Date (`none`). -/
def parseDateUTC (s : Str) : Option Ymd :=
  if matchesDateOnly s then
    let y := strToNat (s.take 4)
    let m := strToNat ((s.drop 5).take 2)
    let d := strToNat ((s.drop 8).take 2)
    if 1 ≤ m && m ≤ 12 && 1 ≤ d && d ≤ daysInMonth y m then some ⟨y, m, d⟩
    else none
  else none

/-- Calendar day before `t` (month lengths and year boundaries handled). -/
def prevDay (t : Ymd) : Ymd :=
  if t.day > 1 then ⟨t.year, t.month, t.day - 1⟩
  else if t.month > 1 then ⟨t.year, t.month - 1, daysInMonth t.year (t.month - 1)⟩
  else ⟨t.year - 1, 12, 31⟩

/-- The calendar date `toISOString` renders for the local midnight of `t`
in an environment whose `getTimezoneOffset()` is `o` minutes (|o| < 1440):
the same date when the zone is at or behind UTC (`o ≥ 0`), the previous
date when the zone is ahead of UTC (`o < 0`). -/
def isoShift (o : Int) (t : Ymd) : Ymd :=
  if 0 ≤ o then t else prevDay t

/-- JS UTF-16 lexicographic string comparison `a < b`. -/
def jsLt : Str → Str → Bool
  | _, [] => false
  | [], _ :: _ => true
  | x :: xs, y :: ys =>
    if x.toNat < y.toNat then true
    else if y.toNat < x.toNat then false
    else jsLt xs ys

/-- JS string comparison `a <= b`. -/
def jsLe (a b : Str) : Bool := !(jsLt b a)

/-! ## Derived views (`expense-utils.ts`) -/

/-- Model of `expense-utils.ts` `getMonthRange`: split the `YYYY-MM` key,
take local midnight of the first and last day of that month
(`new Date(year, month-1, 1)` / `new Date(year, month, 0)`) and render both
through `toISOString().split('T')[0]`.  The environment's
`getTimezoneOffset()` is the explicit `tzOffsetMin` argument (the rendered
date slips to the previous day in zones ahead of UTC, see `isoShift`).
Month keys outside 1..12 (where the JS `Date` constructor would normalize
overflow) are not modelled. -/
def getMonthRange (tzOffsetMin : Int) (yearMonth : Str) : Str × Str :=
  (encodeDate (isoShift tzOffsetMin
    ⟨strToNat ((jsSplitOn '-' yearMonth).getD 0 []),
     strToNat ((jsSplitOn '-' yearMonth).getD 1 []), 1⟩),
   encodeDate (isoShift tzOffsetMin
    ⟨strToNat ((jsSplitOn '-' yearMonth).getD 0 []),
     strToNat ((jsSplitOn '-' yearMonth).getD 1 []),
     daysInMonth (strToNat ((jsSplitOn '-' yearMonth).getD 0 []))
       (strToNat ((jsSplitOn '-' yearMonth).getD 1 []))⟩))

/-- Model of `expense-utils.ts` `getExpensesForMonth`: keep the expenses
whose `paidAt` string lies inclusively between the rendered range bounds
(JS `>=` / `<=` on strings). -/
def getExpensesForMonth (tzOffsetMin : Int) (expenses : List Expense)
    (yearMonth : Str) : List Expense :=
  expenses.filter (fun e =>
    jsLe (getMonthRange tzOffsetMin yearMonth).1 e.paidAt &&
    jsLe e.paidAt (getMonthRange tzOffsetMin yearMonth).2)

/-- One output group of `calculateCategoryTotals` (`CategoryTotal` in
`types/expense.ts`; the key is `Option` because a runtime-degraded record
can carry `category: undefined`, which the JS `Map` keys happily accept). -/
structure CategoryTotal where
  category : Option Str
  totalCents : Int
  expenseCount : Nat
  deriving Repr, DecidableEq

/-- The grouping `Map` of `calculateCategoryTotals`, as an association
list in insertion order. -/
abbrev TotalsMap := List (Option Str × Int × Nat)

/-- JS `Map.prototype.get` for the totals map. -/
def totalsGet (m : TotalsMap) (k : Option Str) : Option (Int × Nat) :=
  match m with
  | [] => none
  | (k1, v) :: rest => if k1 == k then some v else totalsGet rest k

/-- JS `Map.prototype.set` for the totals map: replace in place or append. -/
def totalsSet (m : TotalsMap) (k : Option Str) (v : Int × Nat) : TotalsMap :=
  match m with
  | [] => [(k, v)]
  | (k1, v1) :: rest =>
    if k1 == k then (k1, v) :: rest else (k1, v1) :: totalsSet rest k v

/-- Stable insertion of a group into a descending-by-total list: the new,
originally-earlier element goes before every strictly-smaller group and
before equal groups it preceded (JS `Array.prototype.sort` is stable). -/
def insertDesc (x : CategoryTotal) : List CategoryTotal → List CategoryTotal
  | [] => [x]
  | y :: ys =>
    if y.totalCents ≤ x.totalCents then x :: y :: ys else y :: insertDesc x ys

/-- Stable descending sort by `totalCents`, the order
`.sort((a, b) => b.totalCents - a.totalCents)` produces. -/
def sortByTotalDesc : List CategoryTotal → List CategoryTotal
  | [] => []
  | x :: xs => insertDesc x (sortByTotalDesc xs)

/-- Model of `expense-utils.ts` `calculateCategoryTotals`: fold the
expenses into the insertion-ordered grouping map, then emit the groups
sorted descending by total. -/
def calculateCategoryTotals (expenses : List Expense) : List CategoryTotal :=
  sortByTotalDesc ((expenses.foldl
    (fun m e => totalsSet m e.category
      (((totalsGet m e.category).getD (0, 0)).1 + e.amountCents,
       ((totalsGet m e.category).getD (0, 0)).2 + 1))
    []).map (fun p => ⟨p.1, p.2.1, p.2.2⟩))

/-- Violation message for a missing or non-positive amount. -/
def msgAmountPositive : Str := ofString "Amount must be greater than 0"

/-- Violation message for a missing category. -/
def msgCategoryRequired : Str := ofString "Category is required"

/-- Violation message for a future date. -/
def msgDateFuture : Str := ofString "Date cannot be in the future"

/-- Model of `expense-utils.ts` `validateExpense`, the user-facing
validation run before an Add/Edit is accepted.  `todayEndMs` is the value
of `new Date()` with `setHours(23, 59, 59, 999)` applied, i.e. the ms
timestamp of the end of the current local day.  An unparseable `paidAt`
gives an Invalid Date whose NaN comparison is false, so no date message. -/
def validateExpense (todayEndMs : Int) (expense : ExpenseUpdate) : List Str :=
  (if (match expense.amountCents with | some a => decide (0 < a) | none => false)
   then [] else [msgAmountPositive]) ++
  (if (match expense.category with | some c => !(c == []) | none => false)
   then [] else [msgCategoryRequired]) ++
  (match expense.paidAt with
   | some s =>
     if s ≠ [] then
       match parseDateUTC s with
       | some t => if epochMsOf t > todayEndMs then [msgDateFuture] else []
       | none => []
     else []
   | none => [])

/-! ## CSV codec (`csv-utils.ts` and the import flow of the settings page) -/

/-- Fuel-indexed digit rendering (structural recursion so that concrete
values reduce inside the kernel; `natToStr` supplies ample fuel). -/
def natToStrAux : Nat → Nat → Str
  | 0, _ => []
  | fuel + 1, n =>
    if n < 10 then [digitChar n]
    else natToStrAux fuel (n / 10) ++ [digitChar (n % 10)]

/-- Decimal rendering of `n` (`String(n)` for a nonnegative integer). -/
def natToStr (n : Nat) : Str := natToStrAux (n + 1) n

/-- Model of `(amountCents / 100).toFixed(2)` for the nonnegative integer
cent amounts the schema admits: exact, since `c / 100` has an exact
two-decimal rendering that `toFixed(2)` of the nearest double recovers for
`c ≤ 100000000`. -/
def toFixed2 (amountCents : Int) : Str :=
  natToStr (amountCents.toNat / 100) ++ '.' :: pad2 (amountCents.toNat % 100)

/-- Join with a multi-character separator (`Array.prototype.join(', ')`). -/
def jsJoinSep (sep : Str) : List Str → Str
  | [] => []
  | [x] => x
  | x :: xs => x ++ sep ++ jsJoinSep sep xs

/-- The six cell values `exportToCSV` renders for one expense: `paidAt`
truncated at `T`, amount as a fixed-2-decimal string, and `undefined`
fields rendered as empty strings by `Array.prototype.join`. -/
def exportRow (e : Expense) : List Str :=
  [(jsSplitOn 'T' e.paidAt).getD 0 [],
   toFixed2 e.amountCents,
   e.currency,
   e.category.getD [],
   e.note.getD [],
   e.paymentMethod.getD []]

/-- The constant header line `date,amount,currency,category,note,payment_method`. -/
def csvHeader : Str :=
  jsJoin ','
    [ofString "date", ofString "amount", ofString "currency",
     ofString "category", ofString "note", ofString "payment_method"]

/-- Model of `csv-utils.ts` `exportToCSV`: empty collections throw; one
header line and one line per expense (see `exportRow`), newline-joined,
with a BOM prepended. -/
def exportToCSV (expenses : List Expense) : Except Str Str :=
  if expenses.isEmpty then .error (ofString "No expenses to export")
  else
    .ok (Char.ofNat 0xFEFF ::
      jsJoin '\n' (csvHeader :: expenses.map (fun e => jsJoin ',' (exportRow e))))

/-- Model of `csv-utils.ts` `validateCSVHeaders`: one message when required
columns are missing, one when unknown columns are present. -/
def validateCSVHeaders (headers : List Str) : List Str :=
  (if [ofString "date", ofString "amount", ofString "category"].filter
      (fun h => !headers.contains h) ≠ [] then
    [ofString "Missing required columns: " ++ jsJoinSep (ofString ", ")
      ([ofString "date", ofString "amount", ofString "category"].filter
        (fun h => !headers.contains h))]
   else []) ++
  (if headers.filter (fun h =>
      !([ofString "date", ofString "amount", ofString "currency",
         ofString "category", ofString "note", ofString "payment_method"].contains h)) ≠ [] then
    [ofString "Unknown columns will be ignored: " ++ jsJoinSep (ofString ", ")
      (headers.filter (fun h =>
        !([ofString "date", ofString "amount", ofString "currency",
           ofString "category", ofString "note", ofString "payment_method"].contains h)))]
   else [])

/-- A parsed CSV row object; a column absent from the file reads as the
empty string (`row[h] = values[i] || ''` plus `undefined` field reads). -/
structure CSVRow where
  date : Str := []
  amount : Str := []
  currency : Str := []
  category : Str := []
  note : Str := []
  payment_method : Str := []
  deriving Repr, DecidableEq

/-- Integer and fraction-digit parts of a plain decimal string, as
`parseFloat` reads the strings this codec's own export produces (signs,
exponents and trailing junk are outside the modelled shapes). -/
def parseAmountParts (s : Str) : Option (Nat × Str) :=
  match jsSplitOn '.' s with
  | [ip] => if ip ≠ [] && ip.all isDigitCh then some (strToNat ip, []) else none
  | [ip, fp] =>
    if (ip ≠ [] || fp ≠ []) && ip.all isDigitCh && fp.all isDigitCh then
      some (strToNat ip, fp)
    else none
  | _ => none

/-- Cent contribution of the fraction digits under
`Math.round(amount * 100)`: the first two digits, plus a carry when a third
digit of 5 or more is present.  Exact for fractions of at most two digits
(every amount string the claims exercise); for longer fractions it ignores
double-precision artifacts of the `parseFloat`/multiply detour. -/
def round2 (fp : Str) : Int :=
  (10 * digitVal (fp.getD 0 '0') + digitVal (fp.getD 1 '0')
    + (if fp.length ≥ 3 && 5 ≤ digitVal (fp.getD 2 '0') then 1 else 0) : Int)

/-- The rendering `Date.prototype.toISOString` gives a UTC-midnight date
(year below 10000). -/
def jsToIso (t : Ymd) : Str :=
  encodeDate t ++ ofString "T00:00:00.000Z"

/-- Model of `csv-utils.ts` `createExpenseFromCSVRow`: required-field
check, date parse, positive-amount parse, then — unless duplicates are
allowed — the duplicate test against the existing collection on date,
computed minor-unit amount, category and note (`exp.note === (row.note ||
'')`, where for a string-valued `row.note` the right side is `row.note`
itself and an `undefined` `exp.note` never matches).  On success a record
with fresh id, `toISOString` date-time in `paidAt`, and trimmed text
fields. -/
def createExpenseFromCSVRow (freshId nowIso : Str) (row : CSVRow)
    (defaultCurrency : Str) (existingExpenses : List Expense)
    (allowDuplicates : Bool) : Option Expense :=
  if row.date = [] || row.amount = [] || row.category = [] then none
  else
    match parseDateUTC row.date with
    | none => none
    | some date =>
      match parseAmountParts row.amount with
      | none => none
      | some (ip, fp) =>
        if ip == 0 && fp.all (fun c => c == '0') then none
        else
          if !allowDuplicates && existingExpenses.any (fun exp =>
              (jsSplitOn 'T' exp.paidAt).getD 0 [] == row.date &&
              exp.amountCents == (ip : Int) * 100 + round2 fp &&
              exp.category == some row.category &&
              exp.note == some row.note)
          then none
          else some
            { id := freshId
              amountCents := (ip : Int) * 100 + round2 fp
              currency := if row.currency ≠ [] then row.currency else defaultCurrency
              category := some (jsTrim row.category)
              note := if jsTrim row.note ≠ [] then some (jsTrim row.note) else none
              paidAt := jsToIso date
              paymentMethod :=
                if jsTrim row.payment_method ≠ [] then some (jsTrim row.payment_method)
                else none
              createdAt := nowIso
              updatedAt := nowIso }

/-- Value of `row[name]` after the import flow's
`headers.forEach((header, index) => row[header] = values[index] || '')`:
the last duplicate header wins, missing values read as the empty string. -/
def rowGet (hs vs : List Str) (name : Str) : Str :=
  match (hs.enum.filter (fun p => p.2 == name)).getLast? with
  | none => []
  | some p => vs.getD p.1 []

/-- The row object assembled from one data line. -/
def buildRow (hs vs : List Str) : CSVRow :=
  { date := rowGet hs vs (ofString "date")
    amount := rowGet hs vs (ofString "amount")
    currency := rowGet hs vs (ofString "currency")
    category := rowGet hs vs (ofString "category")
    note := rowGet hs vs (ofString "note")
    payment_method := rowGet hs vs (ofString "payment_method") }

/-- One iteration of the import flow's row loop: skip blank lines,
otherwise split and trim the values, assemble the row object and count the
outcome of `createExpenseFromCSVRow`. -/
def importStep (freshId nowIso : Str) (defaultCurrency : Str)
    (headers : List Str) (expenses : List Expense) (allowDuplicates : Bool)
    (acc : Nat × Nat × List Expense) (rawLine : Str) : Nat × Nat × List Expense :=
  if jsTrim rawLine = [] then acc
  else
    match createExpenseFromCSVRow freshId nowIso
        (buildRow headers ((jsSplitOn ',' (jsTrim rawLine)).map jsTrim))
        defaultCurrency expenses allowDuplicates with
    | some e => (acc.1 + 1, acc.2.1, acc.2.2 ++ [e])
    | none => (acc.1, acc.2.1 + 1, acc.2.2)

/-- Model of the settings page's `importCSV` flow (the caller of
`createExpenseFromCSVRow`): split into lines, trim and split the header
line, abort (`none`) on any header message, then fold `importStep` over the
data lines.  Every created expense receives the same opaque fresh id,
which no counted quantity depends on. -/
def importCSV (freshId nowIso : Str) (defaultCurrency : Str)
    (csvContent : Str) (expenses : List Expense) (allowDuplicates : Bool) :
    Option (Nat × Nat × List Expense) :=
  if validateCSVHeaders
      ((jsSplitOn ',' ((jsSplitOn '\n' csvContent).getD 0 [])).map jsTrim) ≠ [] then
    none
  else
    some (((jsSplitOn '\n' csvContent).drop 1).foldl
      (importStep freshId nowIso defaultCurrency
        ((jsSplitOn ',' ((jsSplitOn '\n' csvContent).getD 0 [])).map jsTrim)
        expenses allowDuplicates)
      (0, 0, []))

/-! ## Auxiliary predicates and concrete sample data -/

/-- A text field that survives the CSV round trip structurally: trimming it
is a no-op and it contains no separator or line break. -/
def csvFieldOk (s : Str) : Bool :=
  (jsTrim s == s) && !s.contains ',' && !s.contains '\n'

/-- A well-formed UUID-shaped id used by the concrete witnesses. -/
def uuidA : Str := ofString "a1b2c3d4-e5f6-a1b2-c3d4-e5f6a1b2c3d4"

/-- A second well-formed UUID-shaped id. -/
def uuidB : Str := ofString "b2c3d4e5-f6a1-b2c3-d4e5-f6a1b2c3d4e5"

/-- A schema-valid ISO datetime used by the concrete witnesses. -/
def isoA : Str := ofString "2024-03-15T10:00:00.000Z"

/-- A schema-valid stored expense. -/
def sampleExpense : Expense :=
  { id := uuidA
    amountCents := 1599
    currency := ofString "EUR"
    category := some (ofString "Food")
    note := some (ofString "lunch")
    paidAt := ofString "2024-03-15"
    paymentMethod := none
    createdAt := isoA
    updatedAt := isoA }

/-- A schema-invalid record (`amountCents` below the schema minimum of 1). -/
def invalidSample : Expense := { sampleExpense with amountCents := 0 }

/-- A persisted state holding one valid expense and nothing else. -/
def basePersist : Persist :=
  { expensesSlot := some [sampleExpense]
    budgetsSlot := none
    settingsSlot := none
    full := false }
/-- A rate-limiter state in which every per-operation-kind counter except
the shared `saveExpenses` one is far beyond its limit, inside an open
window. -/
def exhaustedOwnKinds : RateMap :=
  [("addExpense", ⟨1000000, 9999999999999⟩),
   ("updateExpense", ⟨1000000, 9999999999999⟩),
   ("deleteExpense", ⟨1000000, 9999999999999⟩),
   ("setBudget", ⟨1000000, 9999999999999⟩)]

/-- A fresh-expense input used by the concrete witnesses. -/
def sampleNewExpense : NewExpense :=
  { amountCents := 1000
    currency := ofString "EUR"
    category := ofString "Food"
    note := none
    paidAt := ofString "2024-03-15"
    paymentMethod := none }

/-- An otherwise-valid expense input whose date is decades in the past. -/
def oldDateInput : ExpenseUpdate :=
  { amountCents := some 1000
    category := some (ofString "Food")
    paidAt := some (ofString "2000-01-01") }

/-- A later schema-valid timestamp for update stamps. -/
def isoB : Str := ofString "2024-03-16T09:00:00.000Z"

/-- A partial update supplying new category and note text. -/
def c1Upd : ExpenseUpdate :=
  { category := some (ofString "Lunch"), note := some (ofString "dinner") }

/-- An empty persisted state. -/
def emptyPersist : Persist :=
  { expensesSlot := none, budgetsSlot := none, settingsSlot := none, full := false }

/-- The month key `2024-03`. -/
def ym243 : Str := ofString "2024-03"

/-- The budget the first witness call persists. -/
def firstBudget : Budget :=
  { id := uuidA, yearMonth := ym243, category := none, limitCents := 40000 }

/-- The CSV row of spec example scenario 3. -/
def c3Row : CSVRow :=
  { date := ofString "2024-01-05"
    amount := ofString "12.50"
    category := ofString "Travel" }

/-- An expense dated the last day of March 2024. -/
def march31 : Expense := { sampleExpense with paidAt := ofString "2024-03-31" }

/-- An expense dated the leap day of February 2024. -/
def feb29 : Expense := { sampleExpense with paidAt := ofString "2024-02-29" }

/-- The header names the import flow derives from this codec's own header line. -/
def importHeaders : List Str :=
  [ofString "date", ofString "amount", ofString "currency",
   ofString "category", ofString "note", ofString "payment_method"]

/-- A cell survives line assembly and re-parsing: free of the separators and
fixed by `trim`. -/
def CellOk (x : Str) : Prop := (',' ∉ x) ∧ ('\n' ∉ x) ∧ jsTrim x = x

/-- The conditions under which one expense survives the CSV round trip as a
detectable duplicate: positive amount, a `paidAt` whose date part re-parses,
and defined, trim-stable, separator-free text fields (note included). -/
def GoodExport (e : Expense) : Prop :=
  0 < e.amountCents ∧
  (parseDateUTC ((jsSplitOn 'T' e.paidAt).getD 0 [])).isSome = true ∧
  csvFieldOk e.currency = true ∧
  (∃ c, e.category = some c ∧ c ≠ []) ∧ csvFieldOk (e.category.getD []) = true ∧
  (∃ n, e.note = some n) ∧ csvFieldOk (e.note.getD []) = true ∧
  csvFieldOk (e.paymentMethod.getD []) = true

/-- An expense with no note stored (`note` is `undefined`). -/
def sampleNoNote : Expense := { sampleExpense with note := none }


/-! ## General helper lemmas -/

/-- A collection with a schema-invalid member fails `validateExpenseData`. -/
theorem validateExpenseData_eq_false_of_mem {es : List Expense} {e : Expense}
    (he : e ∈ es) (hbad : ExpenseSchemaOk e = false) :
    validateExpenseData es = false := by
  rw [validateExpenseData, List.all_eq_false]
  exact ⟨e, he, by simp [hbad]⟩

/-- Mapping a function that fixes every member is the identity. -/
theorem map_eq_self_of_forall {α : Type} {f : α → α} {l : List α}
    (h : ∀ a ∈ l, f a = a) : l.map f = l := by
  induction l with
  | nil => rfl
  | cons x xs ih =>
    simp only [List.map_cons]
    rw [h x (by simp), ih (fun a ha => h a (by simp [ha]))]

/-! ## C2: saveExpenses rejects invalid collections atomically -/

/-- C2: for every persisted state and candidate collection containing a
record that fails schema validation, `saveExpenses` fails with the
validation error and leaves the persisted state exactly as it was (the
rate-limit hypothesis says the shared `saveExpenses` window is not
currently exhausted, the regime the claim describes). -/
theorem c2_saveExpenses_invalid_atomic (now : Int) (expenses : List Expense)
    (p : Persist) (m : RateMap)
    (hbad : ∃ e ∈ expenses, ExpenseSchemaOk e = false)
    (hrate : (checkRateLimit now "saveExpenses" 50 60000 m).1 = true) :
    (saveExpenses now expenses p m).1 = .error .invalidData ∧
    (saveExpenses now expenses p m).2.1 = p := by
  obtain ⟨e, he, hbe⟩ := hbad
  have hval := validateExpenseData_eq_false_of_mem he hbe
  refine ⟨?_, ?_⟩ <;> simp [saveExpenses, hrate, hval]

/-- C2 witness: a concrete invalid candidate is rejected and the previous
persisted state survives. -/
theorem c2_saveExpenses_invalid_atomic_witness :
    (saveExpenses 0 [invalidSample] basePersist []).1 = .error .invalidData ∧
    (saveExpenses 0 [invalidSample] basePersist []).2.1 = basePersist :=
  c2_saveExpenses_invalid_atomic 0 [invalidSample] basePersist []
    ⟨invalidSample, by simp, by rfl⟩ (by rfl)

/-! ## C10: the settings schema silently caps categories at 20 -/

/-- C10: any settings object with more than 20 categories fails
`validateSettingsData`, and `saveSettings` on an update carrying 21 or more
individually valid (sanitization-stable, nonempty) category names throws
the validation error without touching the persisted state. -/
theorem c10_settings_category_cap (p : Persist) (upd : SettingsUpdate)
    (cats : List Str)
    (hc : upd.categories = some cats) (hlen : 20 < cats.length)
    (hgood : ∀ c ∈ cats, sanitizeCategory c = c ∧ c ≠ []) :
    (∀ s : Settings, 20 < s.categories.length → validateSettingsData s = false) ∧
    (saveSettings upd p).1 = .error .invalidData ∧
    (saveSettings upd p).2 = p := by
  have hschema : ∀ s : Settings, 20 < s.categories.length →
      validateSettingsData s = false := by
    intro s hs
    have h20 : decide (s.categories.length ≤ 20) = false :=
      decide_eq_false (by omega)
    simp [validateSettingsData, SettingsSchemaOk, h20]
  have hmap : cats.map sanitizeCategory = cats :=
    map_eq_self_of_forall (fun c hc2 => (hgood c hc2).1)
  have hfil : cats.filter (fun c => !decide (c = [])) = cats := by
    rw [List.filter_eq_self]
    intro c hc2
    simpa using (hgood c hc2).2
  have hcand : ∀ cur : Settings,
      validateSettingsData (mergeSettings upd cur cats) = false := by
    intro cur
    exact hschema _ (by simpa [mergeSettings] using hlen)
  refine ⟨hschema, ?_, ?_⟩ <;>
    simp [saveSettings, hc, hmap, hfil, hcand (getSettings p)]

/-- C10 witness: a concrete 21-entry category list is rejected and the
persisted state is untouched. -/
theorem c10_settings_category_cap_witness :
    (∀ s : Settings, 20 < s.categories.length → validateSettingsData s = false) ∧
    (saveSettings
      { categories := some (List.replicate 21 (ofString "Cat")) }
      basePersist).1 = .error .invalidData ∧
    (saveSettings
      { categories := some (List.replicate 21 (ofString "Cat")) }
      basePersist).2 = basePersist :=
  c10_settings_category_cap basePersist
    { categories := some (List.replicate 21 (ofString "Cat")) }
    (List.replicate 21 (ofString "Cat"))
    rfl (by decide) (by decide)

/-! ## C8: which mutating operations actually consult the rate limiter -/

/-- The verdict of `checkRateLimit` depends on the counter map only
through the entry of the operation being checked. -/
theorem checkRateLimit_fst_congr (now : Int) (op : String) (maxOps : Nat)
    (windowMs : Int) {m₁ m₂ : RateMap} (h : mapGet m₁ op = mapGet m₂ op) :
    (checkRateLimit now op maxOps windowMs m₁).1 =
      (checkRateLimit now op maxOps windowMs m₂).1 := by
  simp only [checkRateLimit]
  rw [h]
  rcases mapGet m₂ op with _ | cur
  · rfl
  · simp only
    split_ifs <;> rfl

/-- The outcome and persisted state of `saveExpenses` depend on the counter
map only through the shared `saveExpenses` verdict. -/
theorem saveExpenses_congr (now : Int) (es : List Expense) (p : Persist)
    {m₁ m₂ : RateMap}
    (h : (checkRateLimit now "saveExpenses" 50 60000 m₁).1 =
      (checkRateLimit now "saveExpenses" 50 60000 m₂).1) :
    (saveExpenses now es p m₁).1 = (saveExpenses now es p m₂).1 ∧
    (saveExpenses now es p m₁).2.1 = (saveExpenses now es p m₂).2.1 := by
  simp only [saveExpenses]
  rw [h]
  split_ifs <;> exact ⟨rfl, rfl⟩

/-- The outcome and persisted state of `deleteExpense` depend on the
counter map only through the entry of the shared `saveExpenses` kind:
`deleteExpense` has no per-kind window of its own. -/
theorem deleteExpense_mapGet_congr (now : Int) (idStr : Str) (p : Persist)
    {m₁ m₂ : RateMap}
    (h : mapGet m₁ "saveExpenses" = mapGet m₂ "saveExpenses") :
    (deleteExpense now idStr p m₁).1 = (deleteExpense now idStr p m₂).1 ∧
    (deleteExpense now idStr p m₁).2.1 = (deleteExpense now idStr p m₂).2.1 := by
  have hs := saveExpenses_congr now
    ((getExpenses p).filter (fun e => !(e.id == idStr))) p
    (checkRateLimit_fst_congr now "saveExpenses" 50 60000 h)
  unfold deleteExpense
  split_ifs with hlen
  · exact ⟨rfl, rfl⟩
  · rcases h1 : saveExpenses now ((getExpenses p).filter (fun e => !(e.id == idStr))) p m₁
      with ⟨e1, p1, mm1⟩
    rcases h2 : saveExpenses now ((getExpenses p).filter (fun e => !(e.id == idStr))) p m₂
      with ⟨e2, p2, mm2⟩
    rw [h1, h2] at hs
    obtain ⟨he, hp⟩ := hs
    simp only at he hp
    subst he
    subst hp
    cases e1 with
    | ok u => exact ⟨rfl, rfl⟩
    | error e => exact ⟨rfl, rfl⟩

/-- The `saveBudgets` path can only fail with the validation or the
storage-capacity error, never the rate-limit error. -/
theorem saveBudgets_no_rate_error (budgets : List Budget) (p : Persist) :
    (saveBudgets budgets p).1 ≠ .error .rateLimited := by
  unfold saveBudgets
  split_ifs <;> simp

/-- C8 (amended): only `addExpense` and `updateExpense` consult the rate
limiter under their own operation kind; `deleteExpense` performs no check
of its own (an arbitrary `deleteExpense` counter entry is invisible to it —
it is throttled only through the shared `saveExpenses` window inside
`saveExpenses`), and `setBudget` performs no rate-limit check at all and
can never fail with the rate-limit error. -/
theorem c8_rate_limit_coverage (now : Int) (nowIso freshId idStr ym : Str)
    (inp : NewExpense) (upd : ExpenseUpdate) (limitCents : Int)
    (cat : Option Str) (p : Persist) (m : RateMap) (re : RateEntry) :
    ((checkRateLimit now "addExpense" 100 60000 m).1 = false →
      (addExpense now nowIso freshId inp p m).1 = .error .rateLimited ∧
      (addExpense now nowIso freshId inp p m).2.1 = p) ∧
    ((checkRateLimit now "updateExpense" 100 60000 m).1 = false →
      (updateExpense now nowIso idStr upd p m).1 = .error .rateLimited ∧
      (updateExpense now nowIso idStr upd p m).2.1 = p) ∧
    ((deleteExpense now idStr p (("deleteExpense", re) :: m)).1 =
       (deleteExpense now idStr p m).1 ∧
     (deleteExpense now idStr p (("deleteExpense", re) :: m)).2.1 =
       (deleteExpense now idStr p m).2.1) ∧
    (setBudget freshId ym limitCents cat p).1 ≠ .error .rateLimited := by
  refine ⟨?_, ?_, ?_, ?_⟩
  · intro h
    constructor <;> simp [addExpense, h]
  · intro h
    constructor <;> simp [updateExpense, h]
  · have hkey : (("deleteExpense" : String) == "saveExpenses") = false := by decide
    exact deleteExpense_mapGet_congr now idStr p (by simp [mapGet, hkey])
  · have key : ∀ (bs : List Budget) (bud : Budget),
        (match saveBudgets bs p with
         | (.ok _, p2) => ((.ok bud : Except StoreErr Budget), p2)
         | (.error e, p2) => (.error e, p2)).1 ≠ .error .rateLimited := by
      intro bs bud
      have h := saveBudgets_no_rate_error bs p
      rcases hsb : saveBudgets bs p with ⟨exc, p2⟩
      rw [hsb] at h
      cases exc with
      | ok u => simp
      | error e => simpa using h
    simp only [setBudget]
    exact key _ _

/-- C8 counterexample: with the `deleteExpense` and `setBudget` counters
exhausted far beyond any limit, `deleteExpense` still succeeds and persists
the deletion, and `setBudget` still succeeds and persists the new budget —
neither fails with the rate-limit error the claim requires. -/
theorem c8_counterexample :
    (deleteExpense 0 uuidA basePersist exhaustedOwnKinds).1 = .ok true ∧
    (deleteExpense 0 uuidA basePersist exhaustedOwnKinds).2.1.expensesSlot =
      some [] ∧
    (setBudget uuidB (ofString "2024-03") 50000 none basePersist).1 =
      .ok { id := uuidB, yearMonth := ofString "2024-03", category := none,
            limitCents := 50000 } ∧
    (setBudget uuidB (ofString "2024-03") 50000 none basePersist).2.budgetsSlot =
      some [{ id := uuidB, yearMonth := ofString "2024-03", category := none,
              limitCents := 50000 }] :=
  ⟨rfl, rfl, rfl, rfl⟩

/-- C8 witness: concrete exhausted windows make `addExpense` and
`updateExpense` fail with the rate-limit error, while a `deleteExpense`
counter entry is invisible to `deleteExpense` and `setBudget` cannot fail
with the rate-limit error. -/
theorem c8_rate_limit_coverage_witness :
    ((addExpense 0 isoA uuidB sampleNewExpense basePersist exhaustedOwnKinds).1 =
        .error .rateLimited ∧
      (addExpense 0 isoA uuidB sampleNewExpense basePersist exhaustedOwnKinds).2.1 =
        basePersist) ∧
    ((updateExpense 0 isoA uuidA {} basePersist exhaustedOwnKinds).1 =
        .error .rateLimited ∧
      (updateExpense 0 isoA uuidA {} basePersist exhaustedOwnKinds).2.1 =
        basePersist) ∧
    ((deleteExpense 0 uuidA basePersist
        (("deleteExpense", ⟨1000000, 9999999999999⟩) :: exhaustedOwnKinds)).1 =
        (deleteExpense 0 uuidA basePersist exhaustedOwnKinds).1 ∧
      (deleteExpense 0 uuidA basePersist
        (("deleteExpense", ⟨1000000, 9999999999999⟩) :: exhaustedOwnKinds)).2.1 =
        (deleteExpense 0 uuidA basePersist exhaustedOwnKinds).2.1) ∧
    (setBudget uuidB (ofString "2024-03") 50000 none basePersist).1 ≠
      .error .rateLimited := by
  have h := c8_rate_limit_coverage 0 isoA uuidB uuidA (ofString "2024-03")
    sampleNewExpense {} 50000 none basePersist exhaustedOwnKinds
    ⟨1000000, 9999999999999⟩
  exact ⟨h.1 (by rfl), h.2.1 (by rfl), h.2.2.1, h.2.2.2⟩

/-! ## C9: what the user-facing validateExpense actually checks -/

/-- C9 (amended): `validateExpense` itemizes exactly three rules — positive
amount, category present, date not in the future — and nothing else: there
is no date-older-than-10-years rule (nor note/payment-method length rules),
so an arbitrarily old parseable date yields no violation message. -/
theorem c9_validateExpense_rules (todayEndMs : Int) (e : ExpenseUpdate) :
    (msgAmountPositive ∈ validateExpense todayEndMs e ↔
      ¬ ∃ a, e.amountCents = some a ∧ 0 < a) ∧
    (msgCategoryRequired ∈ validateExpense todayEndMs e ↔
      ¬ ∃ c, e.category = some c ∧ c ≠ []) ∧
    (msgDateFuture ∈ validateExpense todayEndMs e ↔
      ∃ s t, e.paidAt = some s ∧ s ≠ [] ∧ parseDateUTC s = some t ∧
        todayEndMs < epochMsOf t) ∧
    (∀ msg ∈ validateExpense todayEndMs e,
      msg = msgAmountPositive ∨ msg = msgCategoryRequired ∨ msg = msgDateFuture) := by
  have d12 : msgAmountPositive ≠ msgCategoryRequired := by decide
  have d13 : msgAmountPositive ≠ msgDateFuture := by decide
  have d23 : msgCategoryRequired ≠ msgDateFuture := by decide
  have hA : ∀ x : Str,
      x ∈ (if (match e.amountCents with
                | some a => decide (0 < a)
                | none => false) then ([] : List Str) else [msgAmountPositive]) ↔
        (¬ ∃ a, e.amountCents = some a ∧ 0 < a) ∧ x = msgAmountPositive := by
    intro x
    rcases ham : e.amountCents with _ | a
    · simp
    · by_cases h0 : 0 < a
      · simp [h0]
      · simp [h0]
  have hB : ∀ x : Str,
      x ∈ (if (match e.category with
                | some c => !(c == [])
                | none => false) then ([] : List Str) else [msgCategoryRequired]) ↔
        (¬ ∃ c, e.category = some c ∧ c ≠ []) ∧ x = msgCategoryRequired := by
    intro x
    rcases hcat : e.category with _ | c
    · simp
    · by_cases hce : c = []
      · simp [hce]
      · simp [hce]
  have hC : ∀ x : Str,
      x ∈ (match e.paidAt with
           | some s =>
             if s ≠ [] then
               match parseDateUTC s with
               | some t => if epochMsOf t > todayEndMs then [msgDateFuture] else []
               | none => []
             else []
           | none => ([] : List Str)) ↔
        (∃ s t, e.paidAt = some s ∧ s ≠ [] ∧ parseDateUTC s = some t ∧
          todayEndMs < epochMsOf t) ∧ x = msgDateFuture := by
    intro x
    rcases hpd : e.paidAt with _ | sp
    · simp
    · by_cases hsp : sp = []
      · simp [hsp]
      · rcases hpt : parseDateUTC sp with _ | t
        · simp [hsp, hpt]
        · by_cases hft : epochMsOf t > todayEndMs
          · simp [hsp, hpt, hft]
          · simp [hsp, hpt, hft]
  have hsplit : ∀ x : Str, x ∈ validateExpense todayEndMs e ↔
      (x ∈ (if (match e.amountCents with
                | some a => decide (0 < a)
                | none => false) then ([] : List Str) else [msgAmountPositive]) ∨
       x ∈ (if (match e.category with
                | some c => !(c == [])
                | none => false) then ([] : List Str) else [msgCategoryRequired]) ∨
       x ∈ (match e.paidAt with
            | some s =>
              if s ≠ [] then
                match parseDateUTC s with
                | some t => if epochMsOf t > todayEndMs then [msgDateFuture] else []
                | none => []
              else []
            | none => ([] : List Str))) := by
    intro x
    simp [validateExpense, List.mem_append]
  refine ⟨?_, ?_, ?_, ?_⟩
  · constructor
    · intro h
      rcases (hsplit _).1 h with h | h | h
      · exact ((hA _).1 h).1
      · exact absurd ((hB _).1 h).2 d12
      · exact absurd ((hC _).1 h).2 d13
    · intro hno
      exact (hsplit _).2 (Or.inl ((hA _).2 ⟨hno, rfl⟩))
  · constructor
    · intro h
      rcases (hsplit _).1 h with h | h | h
      · exact absurd ((hA _).1 h).2 d12.symm
      · exact ((hB _).1 h).1
      · exact absurd ((hC _).1 h).2 d23
    · intro hno
      exact (hsplit _).2 (Or.inr (Or.inl ((hB _).2 ⟨hno, rfl⟩)))
  · constructor
    · intro h
      rcases (hsplit _).1 h with h | h | h
      · exact absurd ((hA _).1 h).2 d13.symm
      · exact absurd ((hB _).1 h).2 d23.symm
      · exact ((hC _).1 h).1
    · intro hex
      exact (hsplit _).2 (Or.inr (Or.inr ((hC _).2 ⟨hex, rfl⟩)))
  · intro msg hmsg
    rcases (hsplit _).1 hmsg with h | h | h
    · exact Or.inl ((hA _).1 h).2
    · exact Or.inr (Or.inl ((hB _).1 h).2)
    · exact Or.inr (Or.inr ((hC _).1 h).2)

/-- C9 counterexample: with the end of the current day at
2026-10-11T23:59:59.999Z (1791763199999 ms) and a `paidAt` of 2000-01-01 —
more than ten years earlier, as the second conjunct certifies —
`validateExpense` returns no messages at all, so in particular no
date-older-than-10-years violation, contrary to the claim. -/
theorem c9_counterexample :
    validateExpense 1791763199999 oldDateInput = [] ∧
    epochMsOf ⟨2000, 1, 1⟩ < 1791763199999 - 10 * 366 * 86400000 :=
  ⟨rfl, by decide⟩

/-! ## C1: what updateExpense actually merges and persists -/

/-- C1 (amended): when the record is found and the merged record passes
storage validation, `updateExpense` returns and persists (at the same
index) the record `r` merged by `mergeUpdate`: `updatedAt` is refreshed and
every field other than `category` / `note` / `paymentMethod` retains its
previous value when unsupplied, but those three text fields are always
overwritten — with the sanitized supplied value when supplied non-empty,
and cleared to `undefined` when omitted (so a partial omitting `category`
never passes validation and the call throws instead). -/
theorem c1_updateExpense_merge (now : Int) (nowIso id : Str)
    (upd : ExpenseUpdate) (p : Persist) (m : RateMap) (es : List Expense)
    (existing r : Expense)
    (hslot : p.expensesSlot = some es)
    (hval : validateExpenseData es = true)
    (hrate1 : (checkRateLimit now "updateExpense" 100 60000 m).1 = true)
    (hrate2 : (checkRateLimit now "saveExpenses" 50 60000
      (checkRateLimit now "updateExpense" 100 60000 m).2).1 = true)
    (hfull : p.full = false)
    (hidx : es.get? (es.findIdx (fun e => e.id == id)) = some existing)
    (hr : r = mergeUpdate nowIso upd existing)
    (hmerged : validateExpenseData
      (es.set (es.findIdx (fun e => e.id == id)) r) = true) :
    (updateExpense now nowIso id upd p m).1 = .ok (some r) ∧
    (updateExpense now nowIso id upd p m).2.1.expensesSlot =
      some (es.set (es.findIdx (fun e => e.id == id)) r) ∧
    r.updatedAt = nowIso ∧
    (upd.id = none → r.id = existing.id) ∧
    (upd.amountCents = none → r.amountCents = existing.amountCents) ∧
    (upd.currency = none → r.currency = existing.currency) ∧
    (upd.paidAt = none → r.paidAt = existing.paidAt) ∧
    (upd.createdAt = none → r.createdAt = existing.createdAt) ∧
    (upd.category = none → r.category = none) ∧
    (upd.note = none → r.note = none) ∧
    (upd.paymentMethod = none → r.paymentMethod = none) ∧
    (∀ c, upd.category = some c → c ≠ [] →
      r.category = some (sanitizeCategory c)) ∧
    (∀ n, upd.note = some n → n ≠ [] → r.note = some (sanitizeText n 500)) ∧
    (∀ pm, upd.paymentMethod = some pm → pm ≠ [] →
      r.paymentMethod = some (sanitizeText pm 50)) := by
  have hget : getExpenses p = es := by
    simp [getExpenses, hslot, hval]
  have hsave : saveExpenses now (es.set (es.findIdx (fun e => e.id == id)) r) p
      (checkRateLimit now "updateExpense" 100 60000 m).2 =
      (.ok (),
       { p with
         expensesSlot := some (es.set (es.findIdx (fun e => e.id == id)) r) },
       (checkRateLimit now "saveExpenses" 50 60000
         (checkRateLimit now "updateExpense" 100 60000 m).2).2) := by
    simp [saveExpenses, hrate2, hmerged, hfull]
  have hmain : updateExpense now nowIso id upd p m =
      (.ok (some r),
       { p with
         expensesSlot := some (es.set (es.findIdx (fun e => e.id == id)) r) },
       (checkRateLimit now "saveExpenses" 50 60000
         (checkRateLimit now "updateExpense" 100 60000 m).2).2) := by
    unfold updateExpense
    simp only [hrate1, Bool.not_true, Bool.false_eq_true, if_false, hget]
    rw [hidx]
    dsimp only
    rw [← hr, hsave]
  refine ⟨by rw [hmain], by rw [hmain], ?_, ?_, ?_, ?_, ?_, ?_, ?_, ?_, ?_,
    ?_, ?_, ?_⟩ <;> subst hr
  · rfl
  · intro h; simp [mergeUpdate, h]
  · intro h; simp [mergeUpdate, h]
  · intro h; simp [mergeUpdate, h]
  · intro h; simp [mergeUpdate, h]
  · intro h; simp [mergeUpdate, h]
  · intro h; simp [mergeUpdate, h]
  · intro h; simp [mergeUpdate, h]
  · intro h; simp [mergeUpdate, h]
  · intro c hc hne; simp [mergeUpdate, hc, hne]
  · intro n hn hne; simp [mergeUpdate, hn, hne]
  · intro pm hpm hne; simp [mergeUpdate, hpm, hne]

/-- C1 witness: a concrete partial supplying category and note is merged
over the stored record, persisted, and the frame facts hold. -/
theorem c1_updateExpense_merge_witness :
    (updateExpense 0 isoB uuidA c1Upd basePersist []).1 =
      .ok (some (mergeUpdate isoB c1Upd sampleExpense)) ∧
    (updateExpense 0 isoB uuidA c1Upd basePersist []).2.1.expensesSlot =
      some ([sampleExpense].set
        ([sampleExpense].findIdx (fun e => e.id == uuidA))
        (mergeUpdate isoB c1Upd sampleExpense)) ∧
    (mergeUpdate isoB c1Upd sampleExpense).updatedAt = isoB ∧
    (c1Upd.id = none →
      (mergeUpdate isoB c1Upd sampleExpense).id = sampleExpense.id) ∧
    (c1Upd.amountCents = none →
      (mergeUpdate isoB c1Upd sampleExpense).amountCents = sampleExpense.amountCents) ∧
    (c1Upd.currency = none →
      (mergeUpdate isoB c1Upd sampleExpense).currency = sampleExpense.currency) ∧
    (c1Upd.paidAt = none →
      (mergeUpdate isoB c1Upd sampleExpense).paidAt = sampleExpense.paidAt) ∧
    (c1Upd.createdAt = none →
      (mergeUpdate isoB c1Upd sampleExpense).createdAt = sampleExpense.createdAt) ∧
    (c1Upd.category = none → (mergeUpdate isoB c1Upd sampleExpense).category = none) ∧
    (c1Upd.note = none → (mergeUpdate isoB c1Upd sampleExpense).note = none) ∧
    (c1Upd.paymentMethod = none →
      (mergeUpdate isoB c1Upd sampleExpense).paymentMethod = none) ∧
    (∀ c, c1Upd.category = some c → c ≠ [] →
      (mergeUpdate isoB c1Upd sampleExpense).category = some (sanitizeCategory c)) ∧
    (∀ n, c1Upd.note = some n → n ≠ [] →
      (mergeUpdate isoB c1Upd sampleExpense).note = some (sanitizeText n 500)) ∧
    (∀ pm, c1Upd.paymentMethod = some pm → pm ≠ [] →
      (mergeUpdate isoB c1Upd sampleExpense).paymentMethod =
        some (sanitizeText pm 50)) :=
  c1_updateExpense_merge 0 isoB uuidA c1Upd basePersist [] [sampleExpense]
    sampleExpense (mergeUpdate isoB c1Upd sampleExpense)
    rfl rfl rfl rfl rfl rfl rfl rfl

/-- C1 counterexample: updating only `amountCents` of a stored record that
carries category `Food` and note `lunch` does not return a merged record
with those fields retained — the merge clears both to `undefined`
(`category` then fails schema validation), so the call throws the
validation error and persists nothing, contrary to the claim. -/
theorem c1_counterexample :
    (updateExpense 0 isoB uuidA { amountCents := some 2000 } basePersist []).1 =
      .error .invalidData ∧
    (updateExpense 0 isoB uuidA { amountCents := some 2000 } basePersist []).2.1 =
      basePersist ∧
    (mergeUpdate isoB { amountCents := some 2000 } sampleExpense).category = none ∧
    (mergeUpdate isoB { amountCents := some 2000 } sampleExpense).note = none ∧
    sampleExpense.category = some (ofString "Food") ∧
    sampleExpense.note = some (ofString "lunch") :=
  ⟨rfl, rfl, rfl, rfl, rfl, rfl⟩

/-! ## C5: setBudget is a pair-unique upsert -/

/-- Unfolding `upsertBudget` when the head matches the pair. -/
theorem upsertBudget_cons_pos {f ym : Str} {lim : Int} {cat : Option Str}
    {b : Budget} {l : List Budget} (hb : pairMatch ym cat b = true) :
    upsertBudget f ym lim cat (b :: l) =
      { id := b.id, yearMonth := ym, category := cat, limitCents := lim } := by
  simp [upsertBudget, List.findIdx_cons, hb]

/-- Unfolding `upsertBudget` when the head does not match the pair. -/
theorem upsertBudget_cons_neg {f ym : Str} {lim : Int} {cat : Option Str}
    {b : Budget} {l : List Budget} (hb : pairMatch ym cat b = false) :
    upsertBudget f ym lim cat (b :: l) = upsertBudget f ym lim cat l := by
  simp [upsertBudget, List.findIdx_cons, hb]

/-- Unfolding `upsertList` when the head matches the pair. -/
theorem upsertList_cons_pos {f ym : Str} {lim : Int} {cat : Option Str}
    {b : Budget} {l : List Budget} (hb : pairMatch ym cat b = true) :
    upsertList f ym lim cat (b :: l) =
      { id := b.id, yearMonth := ym, category := cat, limitCents := lim } :: l := by
  simp [upsertList, List.findIdx_cons, hb, upsertBudget_cons_pos hb]

/-- Unfolding `upsertList` when the head does not match the pair. -/
theorem upsertList_cons_neg {f ym : Str} {lim : Int} {cat : Option Str}
    {b : Budget} {l : List Budget} (hb : pairMatch ym cat b = false) :
    upsertList f ym lim cat (b :: l) = b :: upsertList f ym lim cat l := by
  by_cases hlt : l.findIdx (pairMatch ym cat) < l.length
  · simp [upsertList, List.findIdx_cons, hb, hlt, Nat.succ_lt_succ_iff,
      upsertBudget_cons_neg hb]
  · simp [upsertList, List.findIdx_cons, hb, hlt, Nat.succ_lt_succ_iff,
      upsertBudget_cons_neg hb]

/-- Members of the upserted collection come from the old collection or are
the new budget value. -/
theorem mem_upsertList {f ym : Str} {lim : Int} {cat : Option Str}
    {bs : List Budget} {x : Budget} (hx : x ∈ upsertList f ym lim cat bs) :
    x ∈ bs ∨ x = upsertBudget f ym lim cat bs := by
  rw [upsertList] at hx
  split at hx
  · exact List.mem_or_eq_of_mem_set hx
  · rcases List.mem_append.1 hx with h | h
    · exact Or.inl h
    · exact Or.inr (List.mem_singleton.1 h)

/-- The new budget value carries the requested pair and limit. -/
theorem upsertBudget_fields (f ym : Str) (lim : Int) (cat : Option Str)
    (bs : List Budget) :
    (upsertBudget f ym lim cat bs).yearMonth = ym ∧
    (upsertBudget f ym lim cat bs).category = cat ∧
    (upsertBudget f ym lim cat bs).limitCents = lim :=
  ⟨rfl, rfl, rfl⟩

/-- The new budget value's id is the fresh one or that of some existing
member of the collection. -/
theorem upsertBudget_id_cases (f ym : Str) (lim : Int) (cat : Option Str)
    (bs : List Budget) :
    (upsertBudget f ym lim cat bs).id = f ∨
      ∃ b ∈ bs, (upsertBudget f ym lim cat bs).id = b.id := by
  rw [upsertBudget]
  rcases hget : bs.get? (bs.findIdx (pairMatch ym cat)) with _ | existing
  · exact Or.inl rfl
  · exact Or.inr ⟨existing, List.get?_mem hget, rfl⟩

/-- Core upsert facts, by induction over the collection: pair-uniqueness
is preserved, exactly the new budget value carries the requested pair,
budgets with other pairs are untouched, and the id is inherited from a
matching member or fresh when none matches. -/
theorem upsert_props (f ym : Str) (lim : Int) (cat : Option Str) :
    ∀ bs : List Budget, uniqueBudgetPairs bs = true →
      uniqueBudgetPairs (upsertList f ym lim cat bs) = true ∧
      (upsertList f ym lim cat bs).filter (pairMatch ym cat) =
        [upsertBudget f ym lim cat bs] ∧
      (upsertList f ym lim cat bs).filter (fun b => !pairMatch ym cat b) =
        bs.filter (fun b => !pairMatch ym cat b) ∧
      (∀ b ∈ bs, pairMatch ym cat b = true →
        (upsertBudget f ym lim cat bs).id = b.id) ∧
      ((∀ b ∈ bs, pairMatch ym cat b = false) →
        (upsertBudget f ym lim cat bs).id = f) := by
  intro bs
  induction bs with
  | nil =>
    intro _
    refine ⟨?_, ?_, ?_, ?_, ?_⟩
    · simp [upsertList, uniqueBudgetPairs]
    · simp [upsertList, upsertBudget, pairMatch]
    · simp [upsertList, upsertBudget, pairMatch]
    · intro b hb
      exact absurd hb (List.not_mem_nil b)
    · intro _
      simp [upsertBudget]
  | cons b l ih =>
    intro huniq
    rw [uniqueBudgetPairs, Bool.and_eq_true] at huniq
    obtain ⟨hall, hl⟩ := huniq
    obtain ⟨ih1, ih2, ih3, ih4, ih5⟩ := ih hl
    by_cases hb : pairMatch ym cat b = true
    · have hy : b.yearMonth = ym := by
        have := hb
        rw [pairMatch, Bool.and_eq_true] at this
        exact eq_of_beq this.1
      have hc : b.category = cat := by
        have := hb
        rw [pairMatch, Bool.and_eq_true] at this
        exact eq_of_beq this.2
      have hallq : ∀ x ∈ l, pairMatch ym cat x = false := by
        intro x hx
        have := List.all_eq_true.1 hall x hx
        rw [hy, hc] at this
        simpa using this
      refine ⟨?_, ?_, ?_, ?_, ?_⟩
      · rw [upsertList_cons_pos hb, uniqueBudgetPairs, Bool.and_eq_true]
        refine ⟨List.all_eq_true.2 ?_, hl⟩
        intro x hx
        simpa using hallq x hx
      · rw [upsertList_cons_pos hb, upsertBudget_cons_pos hb]
        rw [List.filter_cons_of_pos (by simp [pairMatch])]
        rw [List.filter_eq_nil_iff.2 (fun x hx => by simp [hallq x hx])]
      · rw [upsertList_cons_pos hb]
        rw [List.filter_cons_of_neg (by simp [pairMatch]),
          List.filter_cons_of_neg (by simp [hb])]
      · intro b2 hb2 hp2
        rcases List.mem_cons.1 hb2 with h | h
        · subst h
          rw [upsertBudget_cons_pos hb]
        · exact absurd hp2 (by simp [hallq b2 h])
      · intro hfa
        exact absurd hb (by simp [hfa b (List.mem_cons_self b l)])
    · have hbf : pairMatch ym cat b = false := by
        simpa using hb
      have hbud : pairMatch b.yearMonth b.category
          (upsertBudget f ym lim cat l) = false := by
        have hne : ¬ (b.yearMonth = ym ∧ b.category = cat) := by
          rw [pairMatch] at hbf
          intro he
          rw [he.1, he.2] at hbf
          simp at hbf
        have h1 : (upsertBudget f ym lim cat l).yearMonth = ym := rfl
        have h2 : (upsertBudget f ym lim cat l).category = cat := rfl
        rw [pairMatch, h1, h2, Bool.and_eq_false_iff]
        by_cases hy2 : ym = b.yearMonth
        · right
          exact beq_eq_false_iff_ne.2 (fun e => hne ⟨hy2.symm, e.symm⟩)
        · left
          exact beq_eq_false_iff_ne.2 hy2
      refine ⟨?_, ?_, ?_, ?_, ?_⟩
      · rw [upsertList_cons_neg hbf, uniqueBudgetPairs, Bool.and_eq_true]
        refine ⟨List.all_eq_true.2 ?_, ih1⟩
        intro x hx
        rcases mem_upsertList hx with h | h
        · simpa using List.all_eq_true.1 hall x h
        · subst h
          simp [hbud]
      · rw [upsertList_cons_neg hbf, upsertBudget_cons_neg hbf,
          List.filter_cons_of_neg (by simp [hbf])]
        exact ih2
      · rw [upsertList_cons_neg hbf,
          List.filter_cons_of_pos (by simp [hbf]),
          List.filter_cons_of_pos (by simp [hbf]), ih3]
      · intro b2 hb2 hp2
        rcases List.mem_cons.1 hb2 with h | h
        · subst h
          exact absurd hp2 (by simp [hbf])
        · rw [upsertBudget_cons_neg hbf]
          exact ih4 b2 h hp2
      · intro hfa
        rw [upsertBudget_cons_neg hbf]
        exact ih5 (fun b2 h => hfa b2 (List.mem_cons_of_mem b h))

/-- A schema-valid budget has a UUID-shaped id. -/
theorem BudgetSchemaOk_id {b : Budget} (h : BudgetSchemaOk b = true) :
    isUuidStr b.id = true := by
  rw [BudgetSchemaOk] at h
  simp only [Bool.and_eq_true] at h
  exact h.1.1.1.1

/-- C5: on a pair-unique valid persisted budget collection, `setBudget`
persists an upserted collection that is still pair-unique, holds exactly
one budget for the requested `(yearMonth, category)` pair — carrying the
requested limit, the existing entry's id when the pair was present and the
fresh id otherwise — and leaves the budgets of every other pair untouched.
(The hypotheses say the inputs are schema-valid and storage is not full, so
the save succeeds.) -/
theorem c5_setBudget_upsert (freshId yearMonth : Str) (limitCents : Int)
    (category : Option Str) (p : Persist) (bs : List Budget)
    (hslot : p.budgetsSlot = some bs)
    (hval : validateBudgetData bs = true)
    (huniq : uniqueBudgetPairs bs = true)
    (hym : matchesYearMonth yearMonth = true)
    (hcat : optLenLe category 50 = true)
    (hlim0 : 0 ≤ limitCents) (hlim1 : limitCents ≤ 100000000)
    (hid : isUuidStr freshId = true)
    (hfull : p.full = false) :
    (setBudget freshId yearMonth limitCents category p).1 =
      .ok (upsertBudget freshId yearMonth limitCents category bs) ∧
    (setBudget freshId yearMonth limitCents category p).2.budgetsSlot =
      some (upsertList freshId yearMonth limitCents category bs) ∧
    uniqueBudgetPairs (upsertList freshId yearMonth limitCents category bs) = true ∧
    (upsertList freshId yearMonth limitCents category bs).filter
      (pairMatch yearMonth category) =
      [upsertBudget freshId yearMonth limitCents category bs] ∧
    (upsertList freshId yearMonth limitCents category bs).filter
      (fun b => !pairMatch yearMonth category b) =
      bs.filter (fun b => !pairMatch yearMonth category b) ∧
    (upsertBudget freshId yearMonth limitCents category bs).yearMonth = yearMonth ∧
    (upsertBudget freshId yearMonth limitCents category bs).category = category ∧
    (upsertBudget freshId yearMonth limitCents category bs).limitCents = limitCents ∧
    (∀ b ∈ bs, pairMatch yearMonth category b = true →
      (upsertBudget freshId yearMonth limitCents category bs).id = b.id) ∧
    ((∀ b ∈ bs, pairMatch yearMonth category b = false) →
      (upsertBudget freshId yearMonth limitCents category bs).id = freshId) := by
  have hget : getBudgets p = bs := by
    simp [getBudgets, hslot, hval]
  have hvalmem : ∀ x ∈ bs, BudgetSchemaOk x = true := List.all_eq_true.1 hval
  have hvalid : validateBudgetData
      (upsertList freshId yearMonth limitCents category bs) = true := by
    rw [validateBudgetData, List.all_eq_true]
    intro x hx
    rcases mem_upsertList hx with h | h
    · exact hvalmem x h
    · subst h
      rcases upsertBudget_id_cases freshId yearMonth limitCents category bs
        with h2 | ⟨b0, hb0, h2⟩
      · simp [BudgetSchemaOk, h2, hid, hym, hcat, hlim0, hlim1, upsertBudget_fields]
      · have hb0id := BudgetSchemaOk_id (hvalmem b0 hb0)
        simp [BudgetSchemaOk, h2, hb0id, hym, hcat, hlim0, hlim1, upsertBudget_fields]
  have hsaved : saveBudgets
      (upsertList freshId yearMonth limitCents category bs) p =
      (.ok (),
       { p with
         budgetsSlot := some (upsertList freshId yearMonth limitCents category bs) }) := by
    simp [saveBudgets, hvalid, hfull]
  have hset : setBudget freshId yearMonth limitCents category p =
      (.ok (upsertBudget freshId yearMonth limitCents category bs),
       { p with
         budgetsSlot := some (upsertList freshId yearMonth limitCents category bs) }) := by
    unfold setBudget
    rw [hget, hsaved]
  obtain ⟨u1, u2, u3, u4, u5⟩ :=
    upsert_props freshId yearMonth limitCents category bs huniq
  exact ⟨by rw [hset], by rw [hset], u1, u2, u3, rfl, rfl, rfl, u4, u5⟩

/-- C5 witness (example scenario 2): after `setBudget(ym, 40000)` on an
empty store, a second `setBudget(ym, 50000)` for the same (category-absent)
pair replaces it in place — one budget for the pair, the second limit, the
first call's id — with pair-uniqueness preserved. -/
theorem c5_setBudget_upsert_witness :
    (setBudget uuidB ym243 50000 none
      (setBudget uuidA ym243 40000 none emptyPersist).2).1 =
      .ok (upsertBudget uuidB ym243 50000 none [firstBudget]) ∧
    (setBudget uuidB ym243 50000 none
      (setBudget uuidA ym243 40000 none emptyPersist).2).2.budgetsSlot =
      some (upsertList uuidB ym243 50000 none [firstBudget]) ∧
    uniqueBudgetPairs (upsertList uuidB ym243 50000 none [firstBudget]) = true ∧
    (upsertList uuidB ym243 50000 none [firstBudget]).filter
      (pairMatch ym243 none) =
      [upsertBudget uuidB ym243 50000 none [firstBudget]] ∧
    (upsertList uuidB ym243 50000 none [firstBudget]).filter
      (fun b => !pairMatch ym243 none b) =
      [firstBudget].filter (fun b => !pairMatch ym243 none b) ∧
    (upsertBudget uuidB ym243 50000 none [firstBudget]).yearMonth = ym243 ∧
    (upsertBudget uuidB ym243 50000 none [firstBudget]).category = none ∧
    (upsertBudget uuidB ym243 50000 none [firstBudget]).limitCents = 50000 ∧
    (∀ b ∈ [firstBudget], pairMatch ym243 none b = true →
      (upsertBudget uuidB ym243 50000 none [firstBudget]).id = b.id) ∧
    ((∀ b ∈ [firstBudget], pairMatch ym243 none b = false) →
      (upsertBudget uuidB ym243 50000 none [firstBudget]).id = uuidB) :=
  c5_setBudget_upsert uuidB ym243 50000 none
    (setBudget uuidA ym243 40000 none emptyPersist).2 [firstBudget]
    rfl rfl rfl rfl rfl (by decide) (by decide) rfl rfl

/-! ## C7: category totals conserve amounts and counts -/

/-- Stable descending insertion only permutes. -/
theorem insertDesc_perm (x : CategoryTotal) (l : List CategoryTotal) :
    (insertDesc x l).Perm (x :: l) := by
  induction l with
  | nil => exact List.Perm.refl _
  | cons y ys ih =>
    rw [insertDesc]
    split
    · exact List.Perm.refl _
    · exact ((ih.cons y).trans (List.Perm.swap x y ys))

/-- The descending sort only permutes. -/
theorem sortByTotalDesc_perm (l : List CategoryTotal) :
    (sortByTotalDesc l).Perm l := by
  induction l with
  | nil => exact List.Perm.refl _
  | cons x xs ih =>
    exact (insertDesc_perm x (sortByTotalDesc xs)).trans (ih.cons x)

/-- Upserting an expense into the grouping map adds its amount to the
total sum and one to the count sum. -/
theorem totalsSet_sums (m : TotalsMap) (k : Option Str) (a : Int) :
    ((totalsSet m k (((totalsGet m k).getD (0, 0)).1 + a,
        ((totalsGet m k).getD (0, 0)).2 + 1)).map (fun p => p.2.1)).sum =
      (m.map (fun p => p.2.1)).sum + a ∧
    ((totalsSet m k (((totalsGet m k).getD (0, 0)).1 + a,
        ((totalsGet m k).getD (0, 0)).2 + 1)).map (fun p => p.2.2)).sum =
      (m.map (fun p => p.2.2)).sum + 1 := by
  induction m with
  | nil => simp [totalsSet, totalsGet]
  | cons hd tl ih =>
    rcases hd with ⟨k1, v1⟩
    by_cases hk : (k1 == k) = true
    · constructor <;> simp [totalsSet, totalsGet, hk] <;> ring
    · have hk2 : (k1 == k) = false := by simpa using hk
      have hg : totalsGet ((k1, v1) :: tl) k = totalsGet tl k := by
        simp [totalsGet, hk2]
      have hs : ∀ v : Int × Nat,
          totalsSet ((k1, v1) :: tl) k v = (k1, v1) :: totalsSet tl k v := by
        intro v
        simp [totalsSet, hk2]
      rw [hg, hs]
      constructor
      · rw [List.map_cons, List.sum_cons, ih.1, List.map_cons, List.sum_cons]
        ring
      · rw [List.map_cons, List.sum_cons, ih.2, List.map_cons, List.sum_cons]
        omega

/-- Folding expenses into the grouping map accumulates the total amount
and the record count. -/
theorem foldl_totals_sums (es : List Expense) : ∀ m : TotalsMap,
    ((es.foldl
        (fun m e => totalsSet m e.category
          (((totalsGet m e.category).getD (0, 0)).1 + e.amountCents,
           ((totalsGet m e.category).getD (0, 0)).2 + 1))
        m).map (fun p => p.2.1)).sum =
      (m.map (fun p => p.2.1)).sum + (es.map Expense.amountCents).sum ∧
    ((es.foldl
        (fun m e => totalsSet m e.category
          (((totalsGet m e.category).getD (0, 0)).1 + e.amountCents,
           ((totalsGet m e.category).getD (0, 0)).2 + 1))
        m).map (fun p => p.2.2)).sum =
      (m.map (fun p => p.2.2)).sum + es.length := by
  induction es with
  | nil => intro m; simp
  | cons e es ih =>
    intro m
    obtain ⟨iha, ihc⟩ := ih (totalsSet m e.category
      (((totalsGet m e.category).getD (0, 0)).1 + e.amountCents,
       ((totalsGet m e.category).getD (0, 0)).2 + 1))
    obtain ⟨ha, hc⟩ := totalsSet_sums m e.category e.amountCents
    constructor
    · rw [List.foldl_cons, iha, ha]
      simp [add_assoc]
    · rw [List.foldl_cons, ihc, hc]
      simp
      omega

/-- C7: the groups of `calculateCategoryTotals` conserve the collection —
the per-category totals sum to the total of all amounts and the
per-category counts sum to the number of expenses. -/
theorem c7_category_totals_conservation (expenses : List Expense) :
    ((calculateCategoryTotals expenses).map CategoryTotal.totalCents).sum =
      (expenses.map Expense.amountCents).sum ∧
    ((calculateCategoryTotals expenses).map CategoryTotal.expenseCount).sum =
      expenses.length := by
  rw [calculateCategoryTotals]
  obtain ⟨ha, hc⟩ := foldl_totals_sums expenses []
  have hperm := sortByTotalDesc_perm ((expenses.foldl
    (fun m e => totalsSet m e.category
      (((totalsGet m e.category).getD (0, 0)).1 + e.amountCents,
       ((totalsGet m e.category).getD (0, 0)).2 + 1))
    []).map (fun p => ⟨p.1, p.2.1, p.2.2⟩))
  constructor
  · rw [(hperm.map CategoryTotal.totalCents).sum_eq]
    rw [List.map_map]
    simpa using ha
  · rw [(hperm.map CategoryTotal.expenseCount).sum_eq]
    rw [List.map_map]
    simpa using hc

/-! ## C3: records built by the import codec violate the storage schema -/

/-- C3 (code bug): for a well-formed row, `createExpenseFromCSVRow` builds
a record whose `paidAt` is the full `toISOString` date-time, which fails
the storage schema's date-only regex — so the record (valid in every other
field, as the last conjunct shows) can never be persisted: the import
flow's `saveExpenses` call throws the validation error. -/
theorem c3_import_breaks_schema :
    ∃ e : Expense,
      createExpenseFromCSVRow uuidB isoA c3Row (ofString "EUR") [] true = some e ∧
      e.paidAt = ofString "2024-01-05T00:00:00.000Z" ∧
      e.amountCents = 1250 ∧
      matchesDateOnly e.paidAt = false ∧
      ExpenseSchemaOk e = false ∧
      validateExpenseData [e] = false ∧
      (saveExpenses 0 (getExpenses emptyPersist ++ [e]) emptyPersist []).1 =
        .error .invalidData ∧
      ExpenseSchemaOk { e with paidAt := ofString "2024-01-05" } = true :=
  ⟨{ id := uuidB
     amountCents := 1250
     currency := ofString "EUR"
     category := some (ofString "Travel")
     note := none
     paidAt := ofString "2024-01-05T00:00:00.000Z"
     paymentMethod := none
     createdAt := isoA
     updatedAt := isoA },
   rfl, rfl, rfl, rfl, rfl, rfl, rfl, rfl⟩

/-! ## String-level helper lemmas (split/join, trim, digit rendering) -/

/-- Characters with different code points are not `==`. -/
theorem char_beq_eq_false {c k : Char} (h : c.toNat ≠ k.toNat) :
    (c == k) = false :=
  beq_eq_false_iff_ne.2 (fun he => h (by rw [he]))

/-- Printable ASCII in the band 45..122 is never JS whitespace. -/
theorem jsIsWs_eq_false_of_range {c : Char} (h1 : 45 ≤ c.toNat)
    (h2 : c.toNat ≤ 122) : jsIsWs c = false := by
  have hne : ∀ k : Char, k.toNat < 45 ∨ 122 < k.toNat → (c == k) = false :=
    fun k hk => char_beq_eq_false (by omega)
  rw [jsIsWs, hne ' ' (by decide), hne '\t' (by decide), hne '\n' (by decide),
    hne (Char.ofNat 11) (by decide), hne (Char.ofNat 12) (by decide),
    hne '\r' (by decide), hne (Char.ofNat 160) (by decide),
    hne (Char.ofNat 0xFEFF) (by decide)]
  rfl

/-- Digit characters occupy code points 48..57. -/
theorem toNat_range_of_isDigitCh {c : Char} (h : isDigitCh c = true) :
    48 ≤ c.toNat ∧ c.toNat ≤ 57 := by
  rw [isDigitCh, Bool.and_eq_true, decide_eq_true_eq, decide_eq_true_eq] at h
  exact h

/-- Uppercase letters occupy code points 65..90. -/
theorem toNat_range_of_isUpperCh {c : Char} (h : isUpperCh c = true) :
    65 ≤ c.toNat ∧ c.toNat ≤ 90 := by
  rw [isUpperCh, Bool.and_eq_true, decide_eq_true_eq, decide_eq_true_eq] at h
  exact h

/-- The length of `dropWhile` never exceeds the input's. -/
theorem length_dropWhile_le (p : Char → Bool) (l : Str) :
    (l.dropWhile p).length ≤ l.length := by
  conv_rhs => rw [← List.takeWhile_append_dropWhile p l]
  rw [List.length_append]
  omega

/-- Trimming shortens or preserves. -/
theorem length_jsTrim_le (s : Str) : (jsTrim s).length ≤ s.length := by
  rw [jsTrim, List.length_reverse]
  calc ((s.dropWhile jsIsWs).reverse.dropWhile jsIsWs).length
      ≤ (s.dropWhile jsIsWs).reverse.length :=
        length_dropWhile_le jsIsWs (s.dropWhile jsIsWs).reverse
    _ = (s.dropWhile jsIsWs).length := List.length_reverse _
    _ ≤ s.length := length_dropWhile_le jsIsWs s

/-- A string is fixed by `trim` exactly when its first and last characters
are not whitespace. -/
theorem jsTrim_eq_self_iff (s : Str) : jsTrim s = s ↔
    (∀ c, s.head? = some c → jsIsWs c = false) ∧
    (∀ c, s.getLast? = some c → jsIsWs c = false) := by
  constructor
  · intro h
    constructor
    · intro c hc
      by_contra hw
      have hw2 : jsIsWs c = true := by simpa using hw
      rcases s with _ | ⟨c0, t⟩
      · cases hc
      · have hc0 : c0 = c := by simpa using hc
        subst hc0
        have hlen : (jsTrim (c0 :: t)).length ≤ t.length := by
          rw [jsTrim, List.length_reverse]
          calc (((c0 :: t).dropWhile jsIsWs).reverse.dropWhile jsIsWs).length
              ≤ ((c0 :: t).dropWhile jsIsWs).reverse.length :=
                length_dropWhile_le _ _
            _ = ((c0 :: t).dropWhile jsIsWs).length := List.length_reverse _
            _ = (t.dropWhile jsIsWs).length := by
                rw [List.dropWhile_cons, hw2]
                simp
            _ ≤ t.length := length_dropWhile_le _ _
        rw [h] at hlen
        simp at hlen
    · intro c hc
      by_contra hw
      have hw2 : jsIsWs c = true := by simpa using hw
      rcases hs1 : s.dropWhile jsIsWs with _ | ⟨d, t1⟩
      · have h0 : jsTrim s = [] := by rw [jsTrim, hs1]; rfl
        rw [h] at h0
        subst h0
        cases hc
      · have hlast : (s.dropWhile jsIsWs).getLast? = some c := by
          have hsplit2 : s = s.takeWhile jsIsWs ++ s.dropWhile jsIsWs :=
            (List.takeWhile_append_dropWhile _ _).symm
          rw [hsplit2, List.getLast?_append, hs1] at hc
          rcases hg : (d :: t1).getLast? with _ | x
          · rw [List.getLast?_eq_none_iff] at hg
            cases hg
          · rw [hg] at hc
            simp only [Option.or_some] at hc
            rw [hs1, hg, hc]
        have hrev : (s.dropWhile jsIsWs).reverse.head? = some c := by
          rw [List.head?_reverse]
          exact hlast
        rcases hr : (s.dropWhile jsIsWs).reverse with _ | ⟨e, t2⟩
        · rw [hr] at hrev
          cases hrev
        · have he : e = c := by
            rw [hr] at hrev
            simpa using hrev
          subst he
          have hlen : (jsTrim s).length ≤ t2.length := by
            rw [jsTrim, List.length_reverse, hr, List.dropWhile_cons, hw2]
            simpa using length_dropWhile_le jsIsWs t2
          have hlen2 : (s.dropWhile jsIsWs).length = t2.length + 1 := by
            have h3 := congrArg List.length hr
            simpa using h3
          have hlen3 : (s.dropWhile jsIsWs).length ≤ s.length :=
            length_dropWhile_le jsIsWs s
          rw [h] at hlen
          omega
  · rintro ⟨h1, h2⟩
    have hd : s.dropWhile jsIsWs = s := by
      rcases s with _ | ⟨c, t⟩
      · rfl
      · rw [List.dropWhile_cons, h1 c rfl]
        simp
    have hrev : s.reverse.dropWhile jsIsWs = s.reverse := by
      rcases hr : s.reverse with _ | ⟨c, t⟩
      · rfl
      · rw [List.dropWhile_cons]
        have hg : s.getLast? = some c := by
          rw [← List.head?_reverse, hr]
          rfl
        rw [h2 c hg]
        simp
    rw [jsTrim, hd, hrev, List.reverse_reverse]

/-- Strings made only of non-whitespace characters are fixed by `trim`. -/
theorem jsTrim_eq_self_of_all {s : Str} (h : ∀ c ∈ s, jsIsWs c = false) :
    jsTrim s = s := by
  apply (jsTrim_eq_self_iff s).2
  constructor
  · intro c hc
    exact h c (List.mem_of_mem_head? (by rw [hc]; rfl))
  · intro c hc
    exact h c (List.mem_of_mem_getLast? (by rw [hc]; rfl))

/-- Splitting never yields the empty list of pieces. -/
theorem jsSplitOn_ne_nil (sep : Char) (s : Str) : jsSplitOn sep s ≠ [] := by
  induction s with
  | nil => simp [jsSplitOn]
  | cons c cs ih =>
    rw [jsSplitOn]
    rcases h : jsSplitOn sep cs with _ | ⟨h1, t1⟩
    · simp
    · dsimp only
      by_cases hc : (c == sep) = true
      · simp [hc]
      · simp [hc]

/-- Splitting a separator-free string yields that single piece. -/
theorem jsSplitOn_of_not_mem {sep : Char} {s : Str} (h : sep ∉ s) :
    jsSplitOn sep s = [s] := by
  induction s with
  | nil => rfl
  | cons c cs ih =>
    have hc : (c == sep) = false :=
      beq_eq_false_iff_ne.2 (fun he => h (by rw [he]; exact List.mem_cons_self _ _))
    rw [jsSplitOn, ih (fun hm => h (List.mem_cons_of_mem c hm)), hc]
    simp

/-- Splitting off a separator-free first piece. -/
theorem jsSplitOn_append {sep : Char} {x : Str} (r : Str) (h : sep ∉ x) :
    jsSplitOn sep (x ++ sep :: r) = x :: jsSplitOn sep r := by
  induction x with
  | nil =>
    rw [List.nil_append, jsSplitOn]
    rcases hr : jsSplitOn sep r with _ | ⟨h1, t1⟩
    · exact absurd hr (jsSplitOn_ne_nil sep r)
    · simp
  | cons c cs ih =>
    have hc : (c == sep) = false :=
      beq_eq_false_iff_ne.2 (fun he => h (by rw [he]; exact List.mem_cons_self _ _))
    rw [List.cons_append, jsSplitOn, ih (fun hm => h (List.mem_cons_of_mem c hm)), hc]
    simp

/-- Splitting inverts joining when no piece contains the separator. -/
theorem jsSplitOn_jsJoin {sep : Char} {xs : List Str} (hne : xs ≠ [])
    (h : ∀ x ∈ xs, sep ∉ x) :
    jsSplitOn sep (jsJoin sep xs) = xs := by
  induction xs with
  | nil => exact absurd rfl hne
  | cons x xs ih =>
    rcases xs with _ | ⟨y, ys⟩
    · exact jsSplitOn_of_not_mem (h x (List.mem_cons_self _ _))
    · have hj : jsJoin sep (x :: y :: ys) = x ++ sep :: jsJoin sep (y :: ys) := rfl
      rw [hj, jsSplitOn_append _ (h x (List.mem_cons_self _ _)),
        ih (List.cons_ne_nil y ys) (fun z hz => h z (List.mem_cons_of_mem x hz))]

/-- Every character of a join is the separator or comes from a piece. -/
theorem mem_jsJoin {sep : Char} {xs : List Str} {c : Char}
    (hc : c ∈ jsJoin sep xs) : c = sep ∨ ∃ x ∈ xs, c ∈ x := by
  induction xs with
  | nil => cases hc
  | cons x xs ih =>
    rcases xs with _ | ⟨y, ys⟩
    · exact Or.inr ⟨x, List.mem_cons_self _ _, hc⟩
    · have hj : jsJoin sep (x :: y :: ys) = x ++ sep :: jsJoin sep (y :: ys) := rfl
      rw [hj] at hc
      rcases List.mem_append.1 hc with h | h
      · exact Or.inr ⟨x, List.mem_cons_self _ _, h⟩
      · rcases List.mem_cons.1 h with h2 | h2
        · exact Or.inl h2
        · rcases ih h2 with h3 | ⟨z, hz, hcz⟩
          · exact Or.inl h3
          · exact Or.inr ⟨z, List.mem_cons_of_mem x hz, hcz⟩

/-- Characters with equal code points are equal. -/
theorem char_eq_of_toNat_eq {c d : Char} (h : c.toNat = d.toNat) : c = d :=
  Char.eq_of_val_eq (UInt32.eq_of_val_eq (Fin.eq_of_val_eq h))

/-- `digitChar` of a digit value is a digit character. -/
theorem isDigitCh_digitChar {d : Nat} (h : d < 10) :
    isDigitCh (digitChar d) = true := by
  have hall : ∀ e, e < 10 → isDigitCh (digitChar e) = true := by decide
  exact hall d h

/-- `digitVal` inverts `digitChar` on digit values. -/
theorem digitVal_digitChar {d : Nat} (h : d < 10) :
    digitVal (digitChar d) = d := by
  have hall : ∀ e, e < 10 → digitVal (digitChar e) = e := by decide
  exact hall d h

/-- Accumulator form of `strToNat`'s fold. -/
theorem strToNat_foldl (s : Str) : ∀ init : Nat,
    s.foldl (fun acc c => acc * 10 + digitVal c) init =
      init * 10 ^ s.length + strToNat s := by
  induction s with
  | nil => intro init; simp [strToNat]
  | cons c cs ih =>
    intro init
    rw [List.foldl_cons, ih]
    have h0 : strToNat (c :: cs) =
        List.foldl (fun acc c => acc * 10 + digitVal c) (0 * 10 + digitVal c) cs :=
      rfl
    rw [h0, ih (0 * 10 + digitVal c), List.length_cons]
    ring

/-- `strToNat` distributes over append positionally. -/
theorem strToNat_append (a b : Str) :
    strToNat (a ++ b) = strToNat a * 10 ^ b.length + strToNat b := by
  rw [strToNat, List.foldl_append, strToNat_foldl]
  rfl

/-- The fuel-indexed digit rendering is correct, nonempty and all digits
whenever the fuel exceeds the value. -/
theorem natToStrAux_spec : ∀ fuel n, n < fuel →
    strToNat (natToStrAux fuel n) = n ∧ natToStrAux fuel n ≠ [] ∧
    ∀ c ∈ natToStrAux fuel n, isDigitCh c = true := by
  intro fuel
  induction fuel with
  | zero => intro n h; omega
  | succ fuel ih =>
    intro n h
    rw [natToStrAux]
    by_cases h10 : n < 10
    · rw [if_pos h10]
      refine ⟨?_, by simp, ?_⟩
      · show strToNat [digitChar n] = n
        rw [strToNat]
        simp [digitVal_digitChar h10]
      · intro c hc
        rw [List.mem_singleton] at hc
        subst hc
        exact isDigitCh_digitChar h10
    · rw [if_neg h10]
      have hdiv : n / 10 < fuel := by omega
      obtain ⟨ih1, ih2, ih3⟩ := ih (n / 10) hdiv
      refine ⟨?_, by simp, ?_⟩
      · rw [strToNat_append, ih1]
        have hm : digitVal (digitChar (n % 10)) = n % 10 :=
          digitVal_digitChar (Nat.mod_lt n (by omega))
        rw [strToNat]
        simp [hm]
        omega
      · intro c hc
        rcases List.mem_append.1 hc with h2 | h2
        · exact ih3 c h2
        · rw [List.mem_singleton] at h2
          subst h2
          exact isDigitCh_digitChar (Nat.mod_lt n (by omega))

/-- `strToNat` inverts `natToStr`. -/
theorem strToNat_natToStr (n : Nat) : strToNat (natToStr n) = n :=
  (natToStrAux_spec (n + 1) n (by omega)).1

/-- `natToStr` is nonempty. -/
theorem natToStr_ne_nil (n : Nat) : natToStr n ≠ [] :=
  (natToStrAux_spec (n + 1) n (by omega)).2.1

/-- `natToStr` renders only digit characters. -/
theorem natToStr_digits (n : Nat) : ∀ c ∈ natToStr n, isDigitCh c = true :=
  (natToStrAux_spec (n + 1) n (by omega)).2.2

/-- `pad2` renders only digit characters. -/
theorem pad2_digits (n : Nat) : ∀ c ∈ pad2 n, isDigitCh c = true := by
  intro c hc
  rw [pad2] at hc
  simp only [List.mem_cons, List.not_mem_nil, or_false] at hc
  rcases hc with h | h <;>
    (subst h; exact isDigitCh_digitChar (Nat.mod_lt _ (by omega)))

set_option maxRecDepth 10000 in
/-- `strToNat` inverts `pad2` below 100. -/
theorem strToNat_pad2 : ∀ n, n < 100 → strToNat (pad2 n) = n := by decide

set_option maxRecDepth 10000 in
/-- The fraction-rounding of a two-digit fraction is exact. -/
theorem round2_pad2 : ∀ n, n < 100 → round2 (pad2 n) = n := by decide

set_option maxRecDepth 10000 in
/-- A nonzero two-digit rendering contains a nonzero digit. -/
theorem pad2_not_all_zero : ∀ n, n < 100 → 0 < n →
    (pad2 n).all (fun c => c == '0') = false := by decide

set_option maxRecDepth 10000 in
/-- Two-digit renderings compare like the numbers they render. -/
theorem jsLt_pad2 : ∀ a, a < 100 → ∀ b, b < 100 →
    jsLt (pad2 a) (pad2 b) = decide (a < b) := by decide

set_option maxRecDepth 10000 in
/-- `pad2` is injective below 100. -/
theorem pad2_ne : ∀ a, a < 100 → ∀ b, b < 100 → a ≠ b → pad2 a ≠ pad2 b := by
  decide

/-- `pad4` splits into two `pad2` blocks. -/
theorem pad4_eq (n : Nat) : pad4 n = pad2 (n / 100) ++ pad2 (n % 100) := by
  have e1 : n / 1000 % 10 = n / 100 / 10 % 10 := by omega
  have e3 : n / 10 % 10 = n % 100 / 10 % 10 := by omega
  have e4 : n % 10 = n % 100 % 10 := by omega
  rw [pad4, pad2, pad2, e1, e3, e4]
  rfl

/-- `strToNat` inverts `pad4` below 10000. -/
theorem strToNat_pad4 (n : Nat) (h : n < 10000) : strToNat (pad4 n) = n := by
  rw [pad4_eq, strToNat_append, strToNat_pad2 (n / 100) (by omega),
    strToNat_pad2 (n % 100) (by omega)]
  have hl : (pad2 (n % 100)).length = 2 := rfl
  rw [hl]
  norm_num
  omega

/-- `pad4` renders only digit characters. -/
theorem pad4_digits (n : Nat) : ∀ c ∈ pad4 n, isDigitCh c = true := by
  intro c hc
  rw [pad4_eq] at hc
  rcases List.mem_append.1 hc with h | h
  · exact pad2_digits _ c h
  · exact pad2_digits _ c h

/-- Comparing strings with a shared prefix compares the suffixes. -/
theorem jsLt_append_left (x : Str) : ∀ u v : Str,
    jsLt (x ++ u) (x ++ v) = jsLt u v := by
  induction x with
  | nil => intro u v; rfl
  | cons c cs ih =>
    intro u v
    rw [List.cons_append, List.cons_append, jsLt]
    simp [ih]

/-- Comparing strings with equal-length different prefixes compares the
prefixes. -/
theorem jsLt_append_of_ne : ∀ x y u v : Str, x.length = y.length → x ≠ y →
    jsLt (x ++ u) (y ++ v) = jsLt x y := by
  intro x
  induction x with
  | nil =>
    intro y u v hlen hne
    rcases y with _ | ⟨d, ds⟩
    · exact absurd rfl hne
    · cases hlen
  | cons c cs ih =>
    intro y u v hlen hne
    rcases y with _ | ⟨d, ds⟩
    · cases hlen
    · by_cases hcd : c.toNat < d.toNat
      · rw [List.cons_append, List.cons_append, jsLt, if_pos hcd, jsLt, if_pos hcd]
      · by_cases hdc : d.toNat < c.toNat
        · rw [List.cons_append, List.cons_append, jsLt, if_neg hcd, if_pos hdc,
            jsLt, if_neg hcd, if_pos hdc]
        · have hc : c = d := char_eq_of_toNat_eq (by omega)
          subst hc
          have hne2 : cs ≠ ds := by
            intro he
            exact hne (by rw [he])
          rw [List.cons_append, List.cons_append, jsLt, if_neg hcd, if_neg hdc,
            jsLt, if_neg hcd, if_neg hdc]
          exact ih ds u v (by simpa using hlen) hne2

/-- Four-digit renderings compare like the numbers they render. -/
theorem jsLt_pad4 (a b : Nat) (ha : a < 10000) (hb : b < 10000) :
    jsLt (pad4 a) (pad4 b) = decide (a < b) := by
  rw [pad4_eq, pad4_eq]
  by_cases hh : a / 100 = b / 100
  · rw [hh, jsLt_append_left,
      jsLt_pad2 (a % 100) (by omega) (b % 100) (by omega)]
    exact decide_eq_decide.mpr (by omega)
  · rw [jsLt_append_of_ne (pad2 (a / 100)) (pad2 (b / 100))
      (pad2 (a % 100)) (pad2 (b % 100)) rfl
      (pad2_ne (a / 100) (by omega) (b / 100) (by omega) hh),
      jsLt_pad2 (a / 100) (by omega) (b / 100) (by omega)]
    exact decide_eq_decide.mpr (by omega)

/-- Comparing strings with an equal head compares the tails. -/
theorem jsLt_cons_eq (c : Char) (u v : Str) :
    jsLt (c :: u) (c :: v) = jsLt u v := by
  rw [jsLt]
  simp

/-- `pad4` is injective below 10000. -/
theorem pad4_ne {a b : Nat} (ha : a < 10000) (hb : b < 10000) (h : a ≠ b) :
    pad4 a ≠ pad4 b :=
  fun he => h (by rw [← strToNat_pad4 a ha, he, strToNat_pad4 b hb])

/-- Canonical date strings compare lexicographically like the number
`year * 10000 + month * 100 + day`. -/
theorem jsLt_encodeDate (a b : Ymd)
    (ha : a.year < 10000) (ham : a.month < 100) (had : a.day < 100)
    (hb : b.year < 10000) (hbm : b.month < 100) (hbd : b.day < 100) :
    jsLt (encodeDate a) (encodeDate b) =
      decide (a.year * 10000 + a.month * 100 + a.day <
              b.year * 10000 + b.month * 100 + b.day) := by
  by_cases hy : a.year = b.year
  · by_cases hm : a.month = b.month
    · rw [encodeDate, encodeDate, hy, hm, jsLt_append_left, jsLt_cons_eq,
        jsLt_pad2 a.day had b.day hbd]
      exact decide_eq_decide.mpr (by omega)
    · rw [encodeDate, encodeDate, hy, List.append_assoc, List.append_assoc,
        jsLt_append_left, List.cons_append, List.cons_append, jsLt_cons_eq,
        jsLt_append_of_ne (pad2 a.month) (pad2 b.month) _ _ rfl
          (pad2_ne a.month ham b.month hbm hm),
        jsLt_pad2 a.month ham b.month hbm]
      exact decide_eq_decide.mpr (by omega)
  · rw [encodeDate, encodeDate, List.append_assoc, List.append_assoc,
      jsLt_append_of_ne (pad4 a.year) (pad4 b.year) _ _ rfl (pad4_ne ha hb hy),
      jsLt_pad4 a.year b.year ha hb]
    exact decide_eq_decide.mpr (by omega)

/-- Canonical date strings order (`<=`) like their numeric keys. -/
theorem jsLe_encodeDate (a b : Ymd)
    (ha : a.year < 10000) (ham : a.month < 100) (had : a.day < 100)
    (hb : b.year < 10000) (hbm : b.month < 100) (hbd : b.day < 100) :
    jsLe (encodeDate a) (encodeDate b) =
      decide (a.year * 10000 + a.month * 100 + a.day ≤
              b.year * 10000 + b.month * 100 + b.day) := by
  rw [jsLe, jsLt_encodeDate b a hb hbm hbd ha ham had, ← decide_not]
  exact decide_eq_decide.mpr (by omega)

/-- Month lengths lie between 28 and 31. -/
theorem daysInMonth_bounds (y m : Nat) :
    28 ≤ daysInMonth y m ∧ daysInMonth y m ≤ 31 := by
  rw [daysInMonth]
  split_ifs <;> omega

/-- A hyphen is not a digit. -/
theorem hyphen_not_digit : isDigitCh '-' = false := by decide

/-- Splitting a canonical month key recovers its two components. -/
theorem jsSplitOn_encodeYm (y m : Nat) :
    jsSplitOn '-' (encodeYm y m) = [pad4 y, pad2 m] := by
  have hnot1 : '-' ∉ pad4 y := fun h => by
    have := pad4_digits y _ h
    rw [hyphen_not_digit] at this
    cases this
  have hnot2 : '-' ∉ pad2 m := fun h => by
    have := pad2_digits m _ h
    rw [hyphen_not_digit] at this
    cases this
  rw [encodeYm, jsSplitOn_append (pad2 m) hnot1, jsSplitOn_of_not_mem hnot2]

/-- In a UTC-or-west environment, the month range of a canonical key is
the first and last calendar day of that month. -/
theorem getMonthRange_encodeYm (o : Int) (ho : 0 ≤ o) (y m : Nat)
    (hy : y ≤ 9999) (hm : m ≤ 99) :
    getMonthRange o (encodeYm y m) =
      (encodeDate ⟨y, m, 1⟩, encodeDate ⟨y, m, daysInMonth y m⟩) := by
  rw [getMonthRange, jsSplitOn_encodeYm]
  have h0 : strToNat ([pad4 y, pad2 m].getD 0 []) = y := by
    rw [List.getD]
    simpa using strToNat_pad4 y (by omega)
  have h1 : strToNat ([pad4 y, pad2 m].getD 1 []) = m := by
    rw [List.getD]
    simpa using strToNat_pad2 m (by omega)
  rw [h0, h1, isoShift, if_pos ho, isoShift, if_pos ho]

/-- C6 (amended): in an environment at or behind UTC
(`getTimezoneOffset() ≥ 0`), `getExpensesForMonth` with a canonical month
key keeps exactly the expenses whose (canonical) `paidAt` date lies
inclusively between the first and last calendar day of that month —
variable month lengths and leap years included — and together with its
complement it partitions the collection.  In environments ahead of UTC the
window slips a day (see the counterexample). -/
theorem c6_month_partition (o : Int) (es : List Expense) (y m : Nat)
    (ho : 0 ≤ o) (hy : y ≤ 9999) (hm1 : 1 ≤ m) (hm2 : m ≤ 12) :
    (getExpensesForMonth o es (encodeYm y m) ++
      es.filter (fun e =>
        !(jsLe (getMonthRange o (encodeYm y m)).1 e.paidAt &&
          jsLe e.paidAt (getMonthRange o (encodeYm y m)).2))).Perm es ∧
    (∀ e ∈ es, ∀ t : Ymd, e.paidAt = encodeDate t →
      1 ≤ t.month → t.month ≤ 12 → 1 ≤ t.day → t.day ≤ 31 → t.year ≤ 9999 →
      (e ∈ getExpensesForMonth o es (encodeYm y m) ↔
        (t.year = y ∧ t.month = m ∧ 1 ≤ t.day ∧ t.day ≤ daysInMonth y m))) := by
  have hdm := daysInMonth_bounds y m
  constructor
  · rw [getExpensesForMonth]
    exact List.filter_append_perm _ es
  · intro e he t hpt hm1' hm2' hd1 hd2 hy'
    rw [getExpensesForMonth, List.mem_filter]
    rw [getMonthRange_encodeYm o ho y m hy (by omega), hpt]
    rw [jsLe_encodeDate ⟨y, m, 1⟩ t (show y < 10000 by omega)
      (show m < 100 by omega) (show (1 : Nat) < 100 by omega)
      (by omega) (by omega) (by omega)]
    rw [jsLe_encodeDate t ⟨y, m, daysInMonth y m⟩ (by omega) (by omega)
      (by omega) (show y < 10000 by omega) (show m < 100 by omega)
      (show daysInMonth y m < 100 by omega)]
    simp only [he, true_and, Bool.and_eq_true, decide_eq_true_eq]
    constructor
    · intro h
      omega
    · intro h
      omega

/-- C6 counterexample: in an environment two hours ahead of UTC
(`getTimezoneOffset() = -120`), the March 2024 filter excludes an expense
dated the last day of March and includes one dated in February — the
claimed first-to-last-day characterization fails. -/
theorem c6_counterexample :
    getExpensesForMonth (-120) [march31] (ofString "2024-03") = [] ∧
    march31.paidAt = encodeDate ⟨2024, 3, 31⟩ ∧
    getExpensesForMonth (-120) [feb29] (ofString "2024-03") = [feb29] ∧
    feb29.paidAt = encodeDate ⟨2024, 2, 29⟩ :=
  ⟨rfl, rfl, rfl, rfl⟩

/-- C6 witness: at UTC, the March 2024 filter keeps the expense dated
2024-03-31 and the partition holds on a concrete collection. -/
theorem c6_month_partition_witness :
    (getExpensesForMonth 0 [march31] (encodeYm 2024 3) ++
      [march31].filter (fun e =>
        !(jsLe (getMonthRange 0 (encodeYm 2024 3)).1 e.paidAt &&
          jsLe e.paidAt (getMonthRange 0 (encodeYm 2024 3)).2))).Perm [march31] ∧
    (∀ e ∈ [march31], ∀ t : Ymd, e.paidAt = encodeDate t →
      1 ≤ t.month → t.month ≤ 12 → 1 ≤ t.day → t.day ≤ 31 → t.year ≤ 9999 →
      (e ∈ getExpensesForMonth 0 [march31] (encodeYm 2024 3) ↔
        (t.year = 2024 ∧ t.month = 3 ∧ 1 ≤ t.day ∧ t.day ≤ daysInMonth 2024 3))) :=
  c6_month_partition 0 [march31] 2024 3 (by omega) (by omega) (by omega) (by omega)


/-! ## C4: the CSV export/import round trip and the undefined-note leak -/

/-- Characters in the band 45..57 (hyphen, dot, digits) are not whitespace,
not the comma and not the newline. -/
theorem clean_of_range {c : Char} (h1 : 45 ≤ c.toNat) (h2 : c.toNat ≤ 57) :
    jsIsWs c = false ∧ c ≠ ',' ∧ c ≠ '\n' := by
  refine ⟨jsIsWs_eq_false_of_range h1 (by omega), ?_, ?_⟩
  · intro he
    subst he
    simp at h1 h2
  · intro he
    subst he
    simp at h1 h2

/-- A schema-shaped date string is made of digits and hyphens only. -/
theorem matchesDateOnly_chars {s : Str} (h : matchesDateOnly s = true) :
    ∀ c ∈ s, 45 ≤ c.toNat ∧ c.toNat ≤ 57 := by
  intro c hc
  match s, h, hc with
  | [y1, y2, y3, y4, s1, m1, m2, s2, d1, d2], h, hc =>
    simp only [matchesDateOnly, Bool.and_eq_true, beq_iff_eq] at h
    obtain ⟨⟨⟨⟨⟨⟨⟨⟨⟨hy1, hy2⟩, hy3⟩, hy4⟩, hs1⟩, hm1⟩, hm2⟩, hs2⟩, hd1⟩, hd2⟩ := h
    have hdig : ∀ d : Char, isDigitCh d = true → 45 ≤ d.toNat ∧ d.toNat ≤ 57 := by
      intro d hd
      have := toNat_range_of_isDigitCh hd
      omega
    simp only [List.mem_cons, List.not_mem_nil, or_false] at hc
    rcases hc with h | h | h | h | h | h | h | h | h | h <;> subst h
    · exact hdig _ hy1
    · exact hdig _ hy2
    · exact hdig _ hy3
    · exact hdig _ hy4
    · rw [hs1]; exact ⟨by decide, by decide⟩
    · exact hdig _ hm1
    · exact hdig _ hm2
    · rw [hs2]; exact ⟨by decide, by decide⟩
    · exact hdig _ hd1
    · exact hdig _ hd2
  | [], h, _ => exact Bool.noConfusion h
  | [a1], h, _ => exact Bool.noConfusion h
  | [a1, a2], h, _ => exact Bool.noConfusion h
  | [a1, a2, a3], h, _ => exact Bool.noConfusion h
  | [a1, a2, a3, a4], h, _ => exact Bool.noConfusion h
  | [a1, a2, a3, a4, a5], h, _ => exact Bool.noConfusion h
  | [a1, a2, a3, a4, a5, a6], h, _ => exact Bool.noConfusion h
  | [a1, a2, a3, a4, a5, a6, a7], h, _ => exact Bool.noConfusion h
  | [a1, a2, a3, a4, a5, a6, a7, a8], h, _ => exact Bool.noConfusion h
  | [a1, a2, a3, a4, a5, a6, a7, a8, a9], h, _ => exact Bool.noConfusion h
  | a1 :: a2 :: a3 :: a4 :: a5 :: a6 :: a7 :: a8 :: a9 :: a10 :: a11 :: r, h, _ =>
    exact Bool.noConfusion h

/-- A schema-shaped date string is nonempty. -/
theorem matchesDateOnly_ne_nil {s : Str} (h : matchesDateOnly s = true) :
    s ≠ [] := by
  intro he
  subst he
  cases h

/-- A successful `new Date(s)` parse implies the date-only shape. -/
theorem parseDateUTC_matchesDateOnly {s : Str} {t : Ymd}
    (h : parseDateUTC s = some t) : matchesDateOnly s = true := by
  rw [parseDateUTC] at h
  by_cases hm : matchesDateOnly s = true
  · exact hm
  · rw [if_neg hm] at h
    cases h

/-- Unpacking the boolean round-trip field test. -/
theorem cellOk_of_csvFieldOk {s : Str} (h : csvFieldOk s = true) : CellOk s := by
  rw [csvFieldOk, Bool.and_eq_true, Bool.and_eq_true] at h
  obtain ⟨⟨htrim, hcomma⟩, hnl⟩ := h
  have hmem : ∀ (a : Char), (!s.contains a) = true → a ∉ s := by
    intro a ha hm
    rw [Bool.not_eq_true', List.contains_eq_any_beq] at ha
    have h2 := List.any_eq_true.2 ⟨a, hm, beq_self_eq_true a⟩
    rw [h2] at ha
    cases ha
  exact ⟨hmem ',' hcomma, hmem '\n' hnl, eq_of_beq htrim⟩

/-- Strings of hyphen/dot/digit characters are intact cells. -/
theorem cellOk_of_range {s : Str} (h : ∀ c ∈ s, 45 ≤ c.toNat ∧ c.toNat ≤ 57) :
    CellOk s := by
  refine ⟨fun hm => ?_, fun hm => ?_, ?_⟩
  · have := h _ hm
    simp at this
  · have := h _ hm
    simp at this
  · exact jsTrim_eq_self_of_all (fun c hc =>
      (clean_of_range (h c hc).1 (h c hc).2).1)

/-- Every character of the fixed-two-decimal rendering is a digit or the dot. -/
theorem toFixed2_chars (a : Int) :
    ∀ c ∈ toFixed2 a, 45 ≤ c.toNat ∧ c.toNat ≤ 57 := by
  intro c hc
  rw [toFixed2] at hc
  rcases List.mem_append.1 hc with h | h
  · have := toNat_range_of_isDigitCh (natToStr_digits _ c h)
    omega
  · rcases List.mem_cons.1 h with h2 | h2
    · subst h2
      exact ⟨by decide, by decide⟩
    · have := toNat_range_of_isDigitCh (pad2_digits _ c h2)
      omega

/-- Under `GoodExport`, every cell the export renders is intact. -/
theorem exportRow_cellOk {e : Expense} (h : GoodExport e) :
    ∀ x ∈ exportRow e, CellOk x := by
  obtain ⟨_, hdate, hcur, _, hcat, _, hnote, hpm⟩ := h
  obtain ⟨t, ht⟩ := Option.isSome_iff_exists.1 hdate
  have hdc := matchesDateOnly_chars (parseDateUTC_matchesDateOnly ht)
  intro x hx
  rw [exportRow] at hx
  simp only [List.mem_cons, List.not_mem_nil, or_false] at hx
  rcases hx with h | h | h | h | h | h <;> subst h
  · exact cellOk_of_range hdc
  · exact cellOk_of_range (toFixed2_chars _)
  · exact cellOk_of_csvFieldOk hcur
  · exact cellOk_of_csvFieldOk hcat
  · exact cellOk_of_csvFieldOk hnote
  · exact cellOk_of_csvFieldOk hpm

/-- Mapping `trim` over already-trimmed cells changes nothing. -/
theorem mapTrim_eq_self {l : List Str} (h : ∀ x ∈ l, jsTrim x = x) :
    l.map jsTrim = l := by
  induction l with
  | nil => rfl
  | cons x xs ih =>
    rw [List.map_cons, h x (List.mem_cons_self _ _),
      ih (fun y hy => h y (List.mem_cons_of_mem x hy))]

/-- The last character of a join of trimmed cells is not whitespace. -/
theorem jsJoin_getLast_not_ws {sep : Char} (hsep : jsIsWs sep = false) :
    ∀ xs : List Str, xs ≠ [] → (∀ x ∈ xs, jsTrim x = x) →
    ∀ c, (jsJoin sep xs).getLast? = some c → jsIsWs c = false := by
  intro xs
  induction xs with
  | nil => intro h; exact absurd rfl h
  | cons x xs ih =>
    intro _ hall c hc
    rcases xs with _ | ⟨y, ys⟩
    · exact ((jsTrim_eq_self_iff x).1 (hall x (List.mem_cons_self _ _))).2 c hc
    · have hj : jsJoin sep (x :: y :: ys) = x ++ sep :: jsJoin sep (y :: ys) := rfl
      rw [hj, List.getLast?_append_of_ne_nil _ (List.cons_ne_nil _ _)] at hc
      rcases hJ : jsJoin sep (y :: ys) with _ | ⟨j, js⟩
      · rw [hJ] at hc
        have hcs : sep = c := by simpa using hc
        rw [← hcs]
        exact hsep
      · rw [hJ] at hc
        have hc2 : (jsJoin sep (y :: ys)).getLast? = some c := by
          rw [hJ]; exact hc
        exact ih (List.cons_ne_nil _ _)
          (fun z hz => hall z (List.mem_cons_of_mem x hz)) c hc2

/-- A join of trimmed cells by a non-whitespace separator is itself trimmed. -/
theorem jsTrim_jsJoin {sep : Char} (hsep : jsIsWs sep = false)
    {xs : List Str} (hne : xs ≠ []) (h : ∀ x ∈ xs, jsTrim x = x) :
    jsTrim (jsJoin sep xs) = jsJoin sep xs := by
  apply (jsTrim_eq_self_iff _).2
  constructor
  · intro c hc
    rcases xs with _ | ⟨x, xs⟩
    · exact absurd rfl hne
    · rcases xs with _ | ⟨y, ys⟩
      · exact ((jsTrim_eq_self_iff x).1 (h x (List.mem_cons_self _ _))).1 c hc
      · have hj : jsJoin sep (x :: y :: ys) = x ++ sep :: jsJoin sep (y :: ys) := rfl
        rw [hj] at hc
        rcases x with _ | ⟨a, as⟩
        · have hcs : sep = c := by simpa using hc
          rw [← hcs]; exact hsep
        · have hxc : (a :: as).head? = some c := by simpa using hc
          exact ((jsTrim_eq_self_iff (a :: as)).1
            (h _ (List.mem_cons_self _ _))).1 c hxc
  · intro c hc
    exact jsJoin_getLast_not_ws hsep _ hne h c hc

/-- `parseFloat`-and-round reads back exactly the cents the export rendered. -/
theorem parseAmountParts_toFixed2 (a : Int) :
    parseAmountParts (toFixed2 a) =
      some (a.toNat / 100, pad2 (a.toNat % 100)) := by
  have hdot1 : '.' ∉ natToStr (a.toNat / 100) := fun hm => by
    have := toNat_range_of_isDigitCh (natToStr_digits _ _ hm)
    simp at this
  have hdot2 : '.' ∉ pad2 (a.toNat % 100) := fun hm => by
    have := toNat_range_of_isDigitCh (pad2_digits _ _ hm)
    simp at this
  rw [parseAmountParts, toFixed2, jsSplitOn_append _ hdot1,
    jsSplitOn_of_not_mem hdot2]
  dsimp only
  rw [if_pos, strToNat_natToStr]
  rw [Bool.and_eq_true, Bool.and_eq_true]
  refine ⟨⟨?_, ?_⟩, ?_⟩
  · have h1 : decide (natToStr (a.toNat / 100) ≠ []) = true :=
      decide_eq_true (natToStr_ne_nil _)
    rw [Bool.or_eq_true]
    exact Or.inl h1
  · exact List.all_eq_true.2 (fun c hc => natToStr_digits _ c hc)
  · exact List.all_eq_true.2 (fun c hc => pad2_digits _ c hc)

/-- Splitting the export's BOM-carrying header line at commas and trimming
recovers the six canonical header names. -/
theorem headerLine_cells :
    (jsSplitOn ',' (Char.ofNat 0xFEFF :: csvHeader)).map jsTrim =
      importHeaders := by decide

/-- The codec's own headers raise no header error. -/
theorem validateCSVHeaders_importHeaders :
    validateCSVHeaders importHeaders = [] := by decide

/-- Row assembly over the canonical headers reads the six cells in order. -/
theorem buildRow_importHeaders (v0 v1 v2 v3 v4 v5 : Str) :
    buildRow importHeaders [v0, v1, v2, v3, v4, v5] =
      ⟨v0, v1, v2, v3, v4, v5⟩ := rfl

/-- A row that the export rendered from a `GoodExport` expense of the
existing collection is rejected as a duplicate of that expense. -/
theorem createExpenseFromCSVRow_dup (freshId nowIso defCur : Str)
    (es : List Expense) (e : Expense) (he : e ∈ es) (h : GoodExport e) :
    createExpenseFromCSVRow freshId nowIso
      (buildRow importHeaders (exportRow e)) defCur es false = none := by
  obtain ⟨ham, hdate, _, ⟨c, hc, hcne⟩, _, ⟨n, hn⟩, _, _⟩ := h
  obtain ⟨t, ht⟩ := Option.isSome_iff_exists.1 hdate
  have hrow : buildRow importHeaders (exportRow e) =
      ⟨(jsSplitOn 'T' e.paidAt).getD 0 [], toFixed2 e.amountCents, e.currency,
       e.category.getD [], e.note.getD [], e.paymentMethod.getD []⟩ := rfl
  rw [hrow, createExpenseFromCSVRow]
  dsimp only
  rw [if_neg, ht]
  · dsimp only
    rw [parseAmountParts_toFixed2]
    dsimp only
    rw [if_neg, if_pos]
    · rw [Bool.not_false, Bool.true_and]
      apply List.any_eq_true.2
      refine ⟨e, he, ?_⟩
      rw [Bool.and_eq_true, Bool.and_eq_true, Bool.and_eq_true]
      refine ⟨⟨⟨beq_self_eq_true _, ?_⟩, ?_⟩, ?_⟩
      · apply beq_iff_eq.2
        rw [round2_pad2 _ (by omega)]
        have := Int.toNat_of_nonneg (le_of_lt ham)
        omega
      · rw [hc]
        exact beq_self_eq_true _
      · rw [hn]
        exact beq_self_eq_true _
    · intro hz
      rw [Bool.and_eq_true] at hz
      obtain ⟨hq, hfz⟩ := hz
      have hq0 : e.amountCents.toNat / 100 = 0 := eq_of_beq hq
      have hr : 0 < e.amountCents.toNat % 100 := by
        have := Int.toNat_of_nonneg (le_of_lt ham)
        omega
      rw [pad2_not_all_zero _ (by omega) hr] at hfz
      cases hfz
  · intro hor
    simp only [Bool.or_eq_true, decide_eq_true_eq] at hor
    rcases hor with (h1 | h1) | h1
    · exact matchesDateOnly_ne_nil (parseDateUTC_matchesDateOnly ht) h1
    · have := natToStr_ne_nil (e.amountCents.toNat / 100)
      rw [toFixed2] at h1
      rcases hh : natToStr (e.amountCents.toNat / 100) with _ | ⟨d, ds⟩
      · exact this hh
      · rw [hh] at h1
        cases h1
    · rw [hc] at h1
      exact hcne (by simpa using h1)
/-- A line the export rendered from a `GoodExport` expense of the existing
collection is counted as skipped, the accumulator otherwise untouched. -/
theorem importStep_skips (freshId nowIso defCur : Str) (es : List Expense)
    (e : Expense) (he : e ∈ es) (h : GoodExport e)
    (acc : Nat × Nat × List Expense) :
    importStep freshId nowIso defCur importHeaders es false acc
      (jsJoin ',' (exportRow e)) = (acc.1, acc.2.1 + 1, acc.2.2) := by
  have hcells := exportRow_cellOk h
  have hrowne : exportRow e ≠ [] := by rw [exportRow]; simp
  have htrim : jsTrim (jsJoin ',' (exportRow e)) = jsJoin ',' (exportRow e) :=
    jsTrim_jsJoin (by decide) hrowne (fun x hx => (hcells x hx).2.2)
  have hne : jsJoin ',' (exportRow e) ≠ [] := by
    rw [exportRow]
    intro hl
    have hj : jsJoin ',' (((jsSplitOn 'T' e.paidAt).getD 0 []) ::
        [toFixed2 e.amountCents, e.currency, e.category.getD [],
         e.note.getD [], e.paymentMethod.getD []]) =
        ((jsSplitOn 'T' e.paidAt).getD 0 []) ++ ',' :: jsJoin ','
          [toFixed2 e.amountCents, e.currency, e.category.getD [],
           e.note.getD [], e.paymentMethod.getD []] := rfl
    rw [hj] at hl
    rcases List.append_eq_nil.1 hl with ⟨_, h2⟩
    cases h2
  rw [importStep, if_neg (fun hz => hne (htrim ▸ hz)), htrim,
    jsSplitOn_jsJoin hrowne (fun x hx => (hcells x hx).1),
    mapTrim_eq_self (fun x hx => (hcells x hx).2.2)]
  have hrow : exportRow e =
      [(jsSplitOn 'T' e.paidAt).getD 0 [], toFixed2 e.amountCents, e.currency,
       e.category.getD [], e.note.getD [], e.paymentMethod.getD []] := rfl
  rw [hrow, buildRow_importHeaders, ← buildRow_importHeaders, ← hrow,
    createExpenseFromCSVRow_dup freshId nowIso defCur es e he h]

/-- Folding the row loop over the export of a sublist of the existing
collection skips once per line. -/
theorem foldl_importStep_skips (freshId nowIso defCur : Str)
    (es : List Expense) (hall : ∀ e ∈ es, GoodExport e) :
    ∀ sub : List Expense, (∀ e ∈ sub, e ∈ es) →
    ∀ acc : Nat × Nat × List Expense,
      (sub.map (fun e => jsJoin ',' (exportRow e))).foldl
        (importStep freshId nowIso defCur importHeaders es false) acc =
      (acc.1, acc.2.1 + sub.length, acc.2.2) := by
  intro sub
  induction sub with
  | nil => intro _ acc; rfl
  | cons x xs ih =>
    intro hsub acc
    rw [List.map_cons, List.foldl_cons,
      importStep_skips freshId nowIso defCur es x
        (hsub x (List.mem_cons_self _ _)) (hall x (hsub x (List.mem_cons_self _ _))) acc,
      ih (fun y hy => hsub y (List.mem_cons_of_mem x hy)) _]
    dsimp only
    rw [List.length_cons]
    have harith : acc.2.1 + 1 + xs.length = acc.2.1 + (xs.length + 1) := by omega
    rw [harith]

/-- Splitting the exported text at newlines recovers the BOM-carrying header
line followed by one line per expense. -/
theorem jsSplitOn_exported (es : List Expense) (hall : ∀ e ∈ es, GoodExport e) :
    jsSplitOn '\n' (Char.ofNat 0xFEFF ::
      jsJoin '\n' (csvHeader :: es.map (fun e => jsJoin ',' (exportRow e)))) =
    (Char.ofNat 0xFEFF :: csvHeader) ::
      es.map (fun e => jsJoin ',' (exportRow e)) := by
  have hinner : jsSplitOn '\n'
      (jsJoin '\n' (csvHeader :: es.map (fun e => jsJoin ',' (exportRow e)))) =
      csvHeader :: es.map (fun e => jsJoin ',' (exportRow e)) := by
    apply jsSplitOn_jsJoin (List.cons_ne_nil _ _)
    intro x hx
    rcases List.mem_cons.1 hx with h1 | h1
    · subst h1
      decide
    · obtain ⟨e, he, hline⟩ := List.mem_map.1 h1
      subst hline
      intro hm
      rcases mem_jsJoin hm with h2 | ⟨z, hz, hcz⟩
      · cases h2
      · exact (exportRow_cellOk (hall e he) z hz).2.1 hcz
  rw [jsSplitOn]
  rw [hinner]
  rfl
/-- C4 (amended): exporting a non-empty collection in which every expense
has a positive amount, a `paidAt` whose date part re-parses, and defined,
trim-stable, separator-free text fields — the note included — and importing
the text against that same collection with duplicates disallowed imports
nothing and errors on nothing: every row is skipped by the duplicate test.
When a note is `undefined` the duplicate test `exp.note === (row.note ||
'')` compares `undefined` to a string, the row is re-imported, and the
claimed zero-import round trip fails (see the counterexample). -/
theorem c4_export_import_roundtrip (freshId nowIso defCur : Str)
    (es : List Expense) (hne : es ≠ []) (h : ∀ e ∈ es, GoodExport e) :
    ∃ text, exportToCSV es = .ok text ∧
      importCSV freshId nowIso defCur text es false =
        some (0, es.length, []) := by
  refine ⟨Char.ofNat 0xFEFF ::
    jsJoin '\n' (csvHeader :: es.map (fun e => jsJoin ',' (exportRow e))), ?_, ?_⟩
  · rw [exportToCSV, if_neg]
    intro hie
    exact hne (List.isEmpty_iff.1 hie)
  · rw [importCSV, jsSplitOn_exported es h]
    have hh : ((Char.ofNat 0xFEFF :: csvHeader) ::
        es.map (fun e => jsJoin ',' (exportRow e))).getD 0 [] =
        Char.ofNat 0xFEFF :: csvHeader := rfl
    rw [hh, headerLine_cells, validateCSVHeaders_importHeaders,
      if_neg (fun hx => hx rfl)]
    have hd : ((Char.ofNat 0xFEFF :: csvHeader) ::
        es.map (fun e => jsJoin ',' (exportRow e))).drop 1 =
        es.map (fun e => jsJoin ',' (exportRow e)) := rfl
    rw [hd, foldl_importStep_skips freshId nowIso defCur es h es
      (fun _ he => he) (0, 0, [])]
    dsimp only
    rw [Nat.zero_add]

/-- C4 counterexample: a stored expense whose `note` is `undefined` defeats
duplicate detection — exporting the one-expense collection and re-importing
it with duplicates disallowed imports one record and skips none. -/
theorem c4_counterexample :
    (exportToCSV [sampleNoNote]).map (fun text =>
      (importCSV uuidB isoA (ofString "EUR") text [sampleNoNote] false).map
        (fun r => (r.1, r.2.1))) = Except.ok (some (1, 0)) := rfl

/-- C4 witness: the round trip at a concrete one-expense collection whose
note is defined imports nothing and skips the one row. -/
theorem c4_export_import_roundtrip_witness :
    [sampleExpense] ≠ [] ∧ (∀ e ∈ [sampleExpense], GoodExport e) ∧
    ∃ text, exportToCSV [sampleExpense] = .ok text ∧
      importCSV uuidB isoA (ofString "EUR") text [sampleExpense] false =
        some (0, [sampleExpense].length, []) :=
  ⟨List.cons_ne_nil _ _,
   fun e he => by
    rw [List.mem_singleton] at he
    subst he
    exact ⟨by decide, by decide, by decide,
      ⟨ofString "Food", rfl, by decide⟩, by decide, ⟨ofString "lunch", rfl⟩,
      by decide, by decide⟩,
   c4_export_import_roundtrip uuidB isoA (ofString "EUR") [sampleExpense]
    (List.cons_ne_nil _ _)
    (fun e he => by
      rw [List.mem_singleton] at he
      subst he
      exact ⟨by decide, by decide, by decide,
        ⟨ofString "Food", rfl, by decide⟩, by decide, ⟨ofString "lunch", rfl⟩,
        by decide, by decide⟩)⟩
end ExpenseTracker
